import Mathlib

/-!
Verification of the workflow execution engine of the `ziran` repository
(`src/services/workflowExecution.ts`), against its natural-language
specification.

The engine is shallowly embedded: JavaScript strings become `List Char`,
JavaScript objects used as string-keyed records become association lists
with insertion-order-preserving update (`objSet`/`objGet`), the `Set` of
processed node ids becomes a list queried by membership, and the
`while`-loop becomes a fuel-indexed recursion (`runLoop`) started with the
source's literal fuel of 100.  The external `generateContent` call is a
stub parameter of type `GenStub` returning `Except` (an exception in the
source is `Except.error`), exactly as the specification's idempotence and
error-handling clauses treat it.  Wall-clock artefacts of the source
(`log-$\x7bDate.now()\x7d` ids, `timestamp`, per-step `latency`) and the
fire-and-forget `onNodeStatusUpdate` callback are not modelled: no claim
mentions them.  `attachments` and the generation parameter record
`version.config` are forwarded unmodified to the external call by the source
and do not influence the engine's control flow, so they are omitted from
the stub's arguments.  The regexes of the source are modelled exactly at
the level at which the source uses them: `/{{([^}]+)}}/g` as a
leftmost-longest scanner (`getVariables`) and
`new RegExp(`{{name}}`, 'g')` as global literal replacement
(`replaceAll`), exact whenever the placeholder name contains no regex
metacharacters and the value no `$`-patterns, which holds for all concrete
inputs considered here.
-/

namespace Ziran

/-- JavaScript strings are modelled as lists of characters. -/
abbrev Str := List Char

/-- A JavaScript object used as a `Record<string, string>`:
an association list in key-insertion order. -/
abbrev VarMap := List (Str × Str)

/-- Read `obj[k]`: first (unique, for maps built by `objSet`) binding of `k`. -/
def objGet : VarMap → Str → Option Str
  | [], _ => none
  | kv :: rest, k => if kv.1 = k then some kv.2 else objGet rest k

/-- Write `obj[k] = v`: update in place if the key exists (JavaScript keeps the
original insertion position), otherwise append. -/
def objSet : VarMap → Str → Str → VarMap
  | [], k, v => [(k, v)]
  | kv :: rest, k, v => if kv.1 = k then (k, v) :: rest else kv :: objSet rest k v

/-- JavaScript truthiness of an optional string: `undefined` and `""` are
falsy.  `truthyOpt o = some s` exactly when `o` holds a nonempty `s`. -/
def truthyOpt : Option Str → Option Str
  | some s => if s.isEmpty then none else some s
  | none => none

/-- Type `LLMConfig` of `src/types.ts`.  Only `id` is read by the engine; the
provider/credential fields are consumed solely by the external call. -/
structure LLMConfig where
  id : Str
deriving DecidableEq

/-- Type `WorkflowEdge` of `src/types.ts`. -/
structure WorkflowEdge where
  id : Str
  source : Str
  sourceHandle : Str
  target : Str
  targetHandle : Str
deriving DecidableEq

/-- Field `WorkflowNode.type`: `'start' | 'llm' | 'end'` (`end` is a Lean keyword,
hence `endNode`). -/
inductive NodeType
  | start
  | llm
  | endNode
deriving DecidableEq

/-- The `data` field of `WorkflowNode`; `projectId` and `globalInputs` are
never read by the engine and are omitted. -/
structure NodeData where
  versionId : Option Str
  includeSystemPrompt : Option Bool
  userPromptOverride : Option Str
  outputVariableName : Option Str
  outputTemplate : Option Str
deriving DecidableEq

/-- Type `WorkflowNode` of `src/types.ts`; the layout fields `x`, `y`, `status`,
`lastOutput` are never read by the engine and are omitted. -/
structure WorkflowNode where
  id : Str
  type : NodeType
  name : Str
  data : NodeData
deriving DecidableEq

/-- A chat message; the engine reads only `content`. -/
structure ChatMessage where
  content : Str
deriving DecidableEq

/-- Type `PromptVersion` of `src/types.ts`, restricted to the fields the engine
reads (`config` is forwarded unmodified to the external call). -/
structure PromptVersion where
  id : Str
  systemInstruction : Str
  content : Str
  messages : Option (List ChatMessage)
  model : Str
deriving DecidableEq

/-- Status of a run or of a step: `'success' | 'error'`. -/
inductive RunStatus
  | success
  | error
deriving DecidableEq

/-- One entry of `WorkflowRunLog.steps`; `latency` is wall-clock and not
modelled. -/
structure RunStep where
  nodeId : Str
  nodeName : Str
  status : RunStatus
  output : Str
deriving DecidableEq

/-- Type `WorkflowRunLog` of `src/types.ts`; the wall-clock `id` and `timestamp`
are not modelled. -/
structure WorkflowRunLog where
  status : RunStatus
  inputs : VarMap
  outputs : VarMap
  steps : List RunStep
deriving DecidableEq

/-- The stubbed external `generateContent` call: it receives the resolved
model configuration (`none` models the JavaScript `undefined` produced by
`availableAPIs[0]` on an empty list), the substituted prompt, and the
system instruction; a thrown exception is `Except.error` carrying
`err.message`. -/
abbrev GenStub := Option LLMConfig → Str → Str → Except Str Str

/-! ## The Variable Resolver (`getVariables`, line 6-8)

`text.match(/{{([^}]+)}}/g)` finds, left to right, every occurrence of
`{{`, followed by a maximal nonempty run of non-`\x7d` characters,
followed by `}}`; on each match `.replace(/{{|}}/g, '')` deletes the
non-overlapping occurrences of `{{` and `}}` from the matched substring.
Both scans are fuel-indexed on the input length so that they compute by
kernel reduction; the fuel is always sufficient. -/

/-- Model of `s.replace(/{{|}}/g, '')`: left-to-right deletion of non-overlapping
occurrences of `{{` and `}}`. -/
def stripBraces : Str → Str
  | [] => []
  | c :: [] => c :: []
  | c :: d :: rest =>
    if c = '{' ∧ d = '{' then stripBraces rest
    else if c = '}' ∧ d = '}' then stripBraces rest
    else c :: stripBraces (d :: rest)

/-- Attempt to match `([^}]+)}}` at the start of `t` (the text following an
opening `{{`).  On success, returns the extracted name (the matched
substring `{{‥}}` with braces deleted) and the text after the match. -/
def matchAt (t : Str) : Option (Str × Str) :=
  match t.dropWhile (fun c => c != '}') with
  | '}' :: '}' :: tail =>
    let p := t.takeWhile (fun c => c != '}')
    if p.isEmpty then none
    else some (stripBraces ('{' :: '{' :: (p ++ ('}' :: '}' :: []))), tail)
  | _ => none

/-- Fuel-indexed scanner for `/{{([^}]+)}}/g`.  With fuel ≥ length the fuel
never runs out (each step consumes at least one character). -/
def getVarsAux : Nat → Str → List Str
  | 0, _ => []
  | _ + 1, [] => []
  | fuel + 1, c :: t =>
    if c = '{' then
      match t with
      | [] => []
      | d :: t2 =>
        if d = '{' then
          match matchAt t2 with
          | some nt => nt.1 :: getVarsAux fuel nt.2
          | none => getVarsAux fuel ('{' :: t2)
        else getVarsAux fuel (d :: t2)
    else getVarsAux fuel t

/-- Line 6-8: `(text.match(/{{([^}]+)}}/g) || []).map(s => s.replace(/{{|}}/g, ''))`. -/
def getVariables (s : Str) : List Str := getVarsAux s.length s

/-! ## Literal global replacement (`new RegExp(`{{k}}`, 'g')`) -/

/-- Fuel-indexed left-to-right non-overlapping global replacement of the
literal pattern `pat` by `rep`. -/
def replaceAllAux (pat rep : Str) : Nat → Str → Str
  | 0, s => s
  | _ + 1, [] => []
  | fuel + 1, c :: rest =>
    if pat.isPrefixOf (c :: rest) && !pat.isEmpty then
      rep ++ replaceAllAux pat rep fuel ((c :: rest).drop pat.length)
    else c :: replaceAllAux pat rep fuel rest

/-- Model of `s.replace(new RegExp(pat, 'g'), rep)` for a literal pattern. -/
def replaceAll (pat rep s : Str) : Str := replaceAllAux pat rep s.length s

/-- Model of the replacement at lines 141, 166 and 173: `t.replace` of the global regex built from the variable name. (lines 141, 166, 173). -/
def replaceVar (t name val : Str) : Str :=
  replaceAll ('{' :: '{' :: (name ++ ('}' :: '}' :: []))) val t

/-! ## The engine (`executeWorkflowEngine`, lines 10-199) -/

/-- The reserved raw-output key `_raw_output_$\x7bnodeId\x7d`. -/
def rawKey (id : Str) : Str := ("_raw_output_".data) ++ id

/-- The `'final'` key of `runLog.outputs`. -/
def finalKey : Str := "final".data

/-- The message of the `throw new Error("Ref version not found")` at line 137. -/
def refVersionNotFoundMsg : Str := "Ref version not found".data

/-- Model of `versions.find(ver => ver.id === node.data.versionId)`: with
`versionId` `undefined` the strict comparison is false for every version. -/
def lookupVersion (versions : List PromptVersion) : Option Str → Option PromptVersion
  | none => none
  | some vid => versions.find? (fun v => v.id == vid)

/-- The required variables of a node (computed identically by the readiness
scan, lines 51-67, and the llm executor, lines 100-109): for an llm node,
the variables of the truthy prompt override, otherwise of the referenced
version's content plus all its chat messages; for an end node, the
variables of its output template. -/
def requiredVarsOf (versions : List PromptVersion) (node : WorkflowNode) : List Str :=
  match node.type with
  | NodeType.llm =>
    match truthyOpt node.data.userPromptOverride with
    | some o => getVariables o
    | none =>
      match lookupVersion versions node.data.versionId with
      | some v =>
        getVariables v.content ++
          (match v.messages with
           | some ms => (ms.map (fun m => getVariables m.content)).flatten
           | none => [])
      | none => []
  | NodeType.endNode => getVariables (node.data.outputTemplate.getD [])
  | NodeType.start => []

/-- The readiness predicate of the scheduler (lines 50-79): every required
variable is in the execution context, or the first edge into this node
whose target-handle equals the variable has an already-processed source. -/
def isReady (versions : List PromptVersion) (edges : List WorkflowEdge)
    (ctx : VarMap) (processed : List Str) (node : WorkflowNode) : Bool :=
  (requiredVarsOf versions node).all (fun v =>
    match objGet ctx v with
    | some _ => true
    | none =>
      match edges.find? (fun e => e.target == node.id && e.targetHandle == v) with
      | none => false
      | some e => processed.contains e.source)

/-- Model of `remainingNodes.findIndex(...)` followed by `splice`: the first ready
node together with the remaining list with that node removed. -/
def findReady (versions : List PromptVersion) (edges : List WorkflowEdge)
    (ctx : VarMap) (processed : List Str) : List WorkflowNode → Option (WorkflowNode × List WorkflowNode)
  | [] => none
  | n :: rest =>
    if isReady versions edges ctx processed n then some (n, rest)
    else
      match findReady versions edges ctx processed rest with
      | some (m, rest') => some (m, n :: rest')
      | none => none

/-- Lines 112-133: gather the llm node's input values into `nodeInputs`
(insertion-ordered, like the JavaScript object). -/
def buildNodeInputs (nodes : List WorkflowNode) (edges : List WorkflowEdge)
    (ctx : VarMap) (node : WorkflowNode) (vars : List Str) : VarMap :=
  vars.foldl (fun acc v =>
    match objGet ctx v with
    | some val => objSet acc v val
    | none =>
      match edges.find? (fun e => e.target == node.id && e.targetHandle == v) with
      | none => acc
      | some e =>
        match nodes.find? (fun n => n.id == e.source) with
        | none => acc
        | some src =>
          match src.type with
          | NodeType.start => objSet acc v ((objGet ctx v).getD [])
          | NodeType.llm =>
            match truthyOpt src.data.outputVariableName with
            | some outVar =>
              match objGet ctx outVar with
              | some w =>
                if w.isEmpty then objSet acc v ((objGet ctx (rawKey src.id)).getD [])
                else objSet acc v w
              | none => objSet acc v ((objGet ctx (rawKey src.id)).getD [])
            | none => objSet acc v ((objGet ctx (rawKey src.id)).getD [])
          | NodeType.endNode => acc) []

/-- Line 144: `availableAPIs.find(a => a.id === version.model) || availableAPIs[0]`. -/
def resolveModelConfig (apis : List LLMConfig) (model : Str) : Option LLMConfig :=
  match apis.find? (fun a => a.id == model) with
  | some c => some c
  | none => apis.head?

/-- Lines 154-158 ("Update Context"): publish the generated text under the
truthy declared output variable (if any) and under the raw-output key. -/
def publishOutput (ctx : VarMap) (node : WorkflowNode) (text : Str) : VarMap :=
  let ctx1 :=
    match truthyOpt node.data.outputVariableName with
    | some ov => objSet ctx ov text
    | none => ctx
  objSet ctx1 (rawKey node.id) text

/-- The llm branch of the node executor (lines 96-158): build the inputs,
look up the referenced version (throwing if missing), substitute the
inputs into the effective prompt one by one, resolve the model
configuration with soft fallback, call the stub, and on success publish
the output into the context. -/
def execLlm (gen : GenStub) (nodes : List WorkflowNode) (edges : List WorkflowEdge)
    (versions : List PromptVersion) (apis : List LLMConfig)
    (ctx : VarMap) (node : WorkflowNode) : Except Str (Str × VarMap) :=
  let vars := requiredVarsOf versions node
  let nodeInputs := buildNodeInputs nodes edges ctx node vars
  match lookupVersion versions node.data.versionId with
  | none => Except.error refVersionNotFoundMsg
  | some version =>
    let promptContent0 := (truthyOpt node.data.userPromptOverride).getD version.content
    let promptContent := nodeInputs.foldl (fun t kv => replaceVar t kv.1 kv.2) promptContent0
    let modelConfig := resolveModelConfig apis version.model
    let systemInstr :=
      match node.data.includeSystemPrompt with
      | some false => []
      | _ => version.systemInstruction
    match gen modelConfig promptContent systemInstr with
    | Except.error msg => Except.error msg
    | Except.ok text => Except.ok (text, publishOutput ctx node text)

/-- The end branch of the node executor (lines 160-179): substitute each
template variable from the context, falling back along the first matching
edge to the source node's raw output or the empty string. -/
def execEnd (nodes : List WorkflowNode) (edges : List WorkflowEdge)
    (ctx : VarMap) (node : WorkflowNode) : Str :=
  let template := node.data.outputTemplate.getD []
  let vars := getVariables template
  vars.foldl (fun t v =>
    match objGet ctx v with
    | some val => replaceVar t v val
    | none =>
      match edges.find? (fun e => e.target == node.id && e.targetHandle == v) with
      | none => t
      | some e =>
        match nodes.find? (fun n => n.id == e.source) with
        | none => t
        | some src => replaceVar t v ((objGet ctx (rawKey src.id)).getD [])) template

/-- The mutable state of the execution loop. -/
structure EngineState where
  remaining : List WorkflowNode
  ctx : VarMap
  processed : List Str
  steps : List RunStep
  status : RunStatus
  outputs : VarMap
deriving DecidableEq

/-- A success step record (line 184-186). -/
def successStep (node : WorkflowNode) (out : Str) : RunStep :=
  { nodeId := node.id, nodeName := node.name, status := RunStatus.success, output := out }

/-- An error step record (line 191-193). -/
def errorStep (node : WorkflowNode) (msg : Str) : RunStep :=
  { nodeId := node.id, nodeName := node.name, status := RunStatus.error, output := msg }

/-- The outcome of one pass of the `while` body: `halt` when the loop exits
(`remaining` empty, no ready node found, or the `break` after an error
step), `next` when it continues with the updated state. -/
inductive StepOut
  | halt (st : EngineState)
  | next (st : EngineState)

/-- The state carried by either outcome. -/
def StepOut.state : StepOut → EngineState
  | halt st => st
  | next st => st

/-- One pass of the execution loop body (lines 46-196). -/
def loopIter (gen : GenStub) (nodes : List WorkflowNode) (edges : List WorkflowEdge)
    (versions : List PromptVersion) (apis : List LLMConfig) (st : EngineState) : StepOut :=
  if st.remaining.isEmpty then StepOut.halt st
  else
    match findReady versions edges st.ctx st.processed st.remaining with
    | none => StepOut.halt st
    | some (node, rest) =>
      match node.type with
      | NodeType.llm =>
        match execLlm gen nodes edges versions apis st.ctx node with
        | Except.ok ot =>
          StepOut.next
            { remaining := rest, ctx := ot.2, processed := node.id :: st.processed,
              steps := st.steps ++ [successStep node ot.1], status := st.status,
              outputs := st.outputs }
        | Except.error msg =>
          StepOut.halt
            { remaining := rest, ctx := st.ctx, processed := st.processed,
              steps := st.steps ++ [errorStep node msg], status := RunStatus.error,
              outputs := st.outputs }
      | NodeType.endNode =>
        StepOut.next
          { remaining := rest, ctx := st.ctx, processed := node.id :: st.processed,
            steps := st.steps ++ [successStep node (execEnd nodes edges st.ctx node)],
            status := st.status,
            outputs := objSet st.outputs finalKey (execEnd nodes edges st.ctx node) }
      | NodeType.start =>
        StepOut.next
          { remaining := rest, ctx := st.ctx, processed := node.id :: st.processed,
            steps := st.steps ++ [successStep node []], status := st.status,
            outputs := st.outputs }

/-- The execution loop, fuel-indexed by the `iterationLimit` (line 44):
`while (remainingNodes.length > 0 && iterationLimit > 0)`. -/
def runLoop (gen : GenStub) (nodes : List WorkflowNode) (edges : List WorkflowEdge)
    (versions : List PromptVersion) (apis : List LLMConfig) : Nat → EngineState → EngineState
  | 0, st => st
  | fuel + 1, st =>
    match loopIter gen nodes edges versions apis st with
    | StepOut.halt st' => st'
    | StepOut.next st' => runLoop gen nodes edges versions apis fuel st'

/-- Model of `JSON.stringify` of a flat string record as produced for the start
step's output (escaping of exotic characters is not modelled; no claim
inspects this value beyond determinism). -/
def jsonStringify (m : VarMap) : Str :=
  '{' :: ((((m.map (fun kv =>
      ('"' :: (kv.1 ++ ('"' :: ':' :: '"' :: []))) ++ (kv.2 ++ ('"' :: [])))).intersperse
        (',' :: [])).flatten) ++ ('}' :: []))

/-- The engine `executeWorkflowEngine` (lines 10-199): log the start node, then run
the scheduling loop with 100 fuel over the non-start nodes, and assemble
the returned run log. -/
def executeWorkflowEngine (gen : GenStub) (nodes : List WorkflowNode)
    (edges : List WorkflowEdge) (startInputs : VarMap)
    (versions : List PromptVersion) (apis : List LLMConfig) : WorkflowRunLog :=
  let startNodeOpt := nodes.find? (fun n => n.type == NodeType.start)
  let steps0 : List RunStep :=
    match startNodeOpt with
    | some s => [successStep s (jsonStringify startInputs)]
    | none => []
  let processed0 : List Str :=
    match startNodeOpt with
    | some s => [s.id]
    | none => []
  let remaining0 := nodes.filter (fun n => !(n.type == NodeType.start))
  let final := runLoop gen nodes edges versions apis 100
    { remaining := remaining0, ctx := startInputs, processed := processed0,
      steps := steps0, status := RunStatus.success, outputs := [] }
  { status := final.status, inputs := startInputs, outputs := final.outputs,
    steps := final.steps }

/-! ## Specification-side definitions -/

/-- Sequential substitution of a template from a variable map alone: for
each extracted placeholder occurrence in order, globally replace
`{{name}}` by its value when the map has the name, else leave the
occurrence alone.  On a graph with no edges this is what the end-node
executor computes. -/
def substituteAll (ctx : VarMap) (template : Str) : Str :=
  (getVariables template).foldl (fun t v =>
    match objGet ctx v with
    | some val => replaceVar t v val
    | none => t) template

/-- Modelled from the spec's wording of the readiness rule (§4.3, step 1),
for the refinement claim about the scheduler: a node is ready when every
required variable is in the context or *there exists* an edge into the
node with that target-handle whose source is processed.  (The code instead
consults only the first matching edge; the two agree exactly when no two
edges bind the same target and target-handle.) -/
def readySpec (versions : List PromptVersion) (edges : List WorkflowEdge)
    (ctx : VarMap) (processed : List Str) (node : WorkflowNode) : Prop :=
  ∀ v ∈ requiredVarsOf versions node,
    (objGet ctx v).isSome ∨
      ∃ e ∈ edges, e.target = node.id ∧ e.targetHandle = v ∧ e.source ∈ processed

/-- A template assembled from literal segments (`Sum.inl`) and placeholder
occurrences (`Sum.inr name`, rendered `{{name}}`). -/
def renderTemplate (parts : List (Sum Str Str)) : Str :=
  (parts.map (fun p =>
    match p with
    | Sum.inl lit => lit
    | Sum.inr v => '{' :: '{' :: (v ++ ('}' :: '}' :: [])))).flatten

/-- The placeholder occurrences of an assembled template, in order. -/
def placeholdersOf (parts : List (Sum Str Str)) : List Str :=
  parts.filterMap (fun p =>
    match p with
    | Sum.inl _ => none
    | Sum.inr v => some v)

/-- Well-formedness of one template part: a literal segment contains no
opening brace, a placeholder name is nonempty and brace-free (the regex
`[^}]+` allows further shapes, but those denote different, escaped-looking
names — see the scanner itself). -/
def wellFormedPart : Sum Str Str → Bool
  | Sum.inl lit => lit.all (fun c => c != '{')
  | Sum.inr v => !v.isEmpty && v.all (fun c => c != '{' && c != '}')

/-! ## Proof infrastructure: invariants of the execution loop -/

/-- All steps of a list are success steps. -/
def okSteps (l : List RunStep) : Prop := ∀ s ∈ l, s.status = RunStatus.success

/-- A loop state on the success path: status `success` and no error step. -/
def InvS (st : EngineState) : Prop :=
  st.status = RunStatus.success ∧ okSteps st.steps

/-- A loop state after an error: status `error` and the step list is all
success steps followed by exactly one final error step. -/
def InvE (st : EngineState) : Prop :=
  st.status = RunStatus.error ∧
    ∃ pre last, st.steps = pre ++ [last] ∧ last.status = RunStatus.error ∧ okSteps pre

/-- Every key of the execution context is an initial-input key, a truthy
declared output variable of some node, or the raw-output key of some node. -/
def ctxKeysOK (nodes : List WorkflowNode) (startInputs : VarMap) (m : VarMap) : Prop :=
  ∀ k, (objGet m k).isSome →
    (objGet startInputs k).isSome ∨
      (∃ nd ∈ nodes, truthyOpt nd.data.outputVariableName = some k) ∨
      (∃ nd ∈ nodes, k = rawKey nd.id)

/-- Every processed node id is the id of some logged step. -/
def procOK (st : EngineState) : Prop :=
  ∀ p ∈ st.processed, ∃ s ∈ st.steps, s.nodeId = p

/-- Every still-pending node is one of the graph's nodes. -/
def remOK (nodes : List WorkflowNode) (st : EngineState) : Prop :=
  ∀ m ∈ st.remaining, m ∈ nodes

/-- If a step with node `n`'s id was logged, some edge into `(n, v)` has an
already-logged source. -/
def goodN (edges : List WorkflowEdge) (n : WorkflowNode) (v : Str) (st : EngineState) : Prop :=
  (∃ s ∈ st.steps, s.nodeId = n.id) →
    ∃ e ∈ edges, e.target = n.id ∧ e.targetHandle = v ∧
      ∃ s ∈ st.steps, s.nodeId = e.source

/-- The conjunction of the scheduling invariants used for claim C2. -/
def inv2 (nodes : List WorkflowNode) (edges : List WorkflowEdge)
    (startInputs : VarMap) (n : WorkflowNode) (v : Str) (st : EngineState) : Prop :=
  ctxKeysOK nodes startInputs st.ctx ∧ procOK st ∧ remOK nodes st ∧ goodN edges n v st

/-! ## Lemmas about the object model -/

theorem objGet_objSet_self (m : VarMap) (k v : Str) : objGet (objSet m k v) k = some v := by
  induction m with
  | nil => simp [objSet, objGet]
  | cons kv rest ih =>
    by_cases h : kv.1 = k
    · simp [objSet, objGet, h]
    · simp [objSet, objGet, h, ih]

theorem objGet_objSet_isSome {m : VarMap} {k v k' : Str}
    (h : (objGet (objSet m k v) k').isSome) : k' = k ∨ (objGet m k').isSome := by
  induction m with
  | nil =>
    simp [objSet, objGet] at h
    by_cases hk : k = k'
    · exact Or.inl hk.symm
    · simp [hk] at h
  | cons kv rest ih =>
    by_cases h1 : kv.1 = k
    · simp only [objSet, if_pos h1] at h
      by_cases h2 : k = k'
      · exact Or.inl h2.symm
      · simp only [objGet, if_neg h2] at h
        right
        simpa [objGet, h1, h2] using h
    · simp only [objSet, if_neg h1] at h
      by_cases h2 : kv.1 = k'
      · right; simp [objGet, h2]
      · simp only [objGet, if_neg h2] at h
        rcases ih h with h3 | h3
        · exact Or.inl h3
        · right; simpa [objGet, h2] using h3

/-! ## Lemmas about the Variable Resolver -/

theorem getVarsAux_nil (f : Nat) : getVarsAux f [] = [] := by
  cases f <;> rfl

theorem matchAt_length {t : Str} {nt : Str × Str} (h : matchAt t = some nt) :
    nt.2.length + 3 ≤ t.length := by
  unfold matchAt at h
  split at h
  next tail heq =>
    by_cases hp : (t.takeWhile (fun c => c != '}')).isEmpty
    · simp only [hp, if_pos] at h
      exact absurd h (by simp)
    · simp only [hp] at h
      rw [if_neg (by simp)] at h
      have ht : t.takeWhile (fun c => c != '}') ++ ('}' :: '}' :: tail) = t := by
        conv_rhs => rw [← List.takeWhile_append_dropWhile (p := fun c => c != '}') (l := t)]
        rw [heq]
      have hnt2 : nt.2 = tail := by
        cases h; rfl
      have hlen : (t.takeWhile (fun c => c != '}')).length + (tail.length + 2) = t.length := by
        have := congrArg List.length ht
        simpa [List.length_append] using this
      have hpos : 0 < (t.takeWhile (fun c => c != '}')).length := by
        cases hq : t.takeWhile (fun c => c != '}') with
        | nil => rw [hq] at hp; simp at hp
        | cons a l => simp [hq]
      have hnl : nt.2.length = tail.length := by rw [hnt2]
      omega
  next => exact absurd h (by simp)

theorem getVarsAux_fuel : ∀ (f g : Nat) (s : Str), s.length ≤ f → s.length ≤ g →
    getVarsAux f s = getVarsAux g s := by
  intro f
  induction f with
  | zero =>
    intro g s hf _
    have : s = [] := List.length_eq_zero.mp (Nat.le_zero.mp hf)
    subst this
    simp [getVarsAux_nil]
  | succ f ih =>
    intro g s hf hg
    cases s with
    | nil => simp [getVarsAux_nil]
    | cons c t =>
      cases g with
      | zero => simp at hg
      | succ g' =>
        simp only [List.length_cons, Nat.succ_le_succ_iff] at hf hg
        simp only [getVarsAux]
        by_cases hc : c = '{'
        · simp only [if_pos hc]
          cases t with
          | nil => rfl
          | cons d t2 =>
            simp only [List.length_cons] at hf hg
            by_cases hd : d = '{'
            · simp only [if_pos hd]
              cases hm : matchAt t2 with
              | some nt =>
                have hb := matchAt_length hm
                simp only [hm]
                rw [ih g' nt.2 (by omega) (by omega)]
              | none =>
                simp only [hm]
                exact ih g' ('{' :: t2) (by simp; omega) (by simp; omega)
            · simp only [if_neg hd]
              exact ih g' (d :: t2) (by simp; omega) (by simp; omega)
        · simp only [if_neg hc]
          exact ih g' t (by omega) (by omega)

theorem getVarsAux_append_lit : ∀ (f : Nat) (lit rest : Str), (∀ c ∈ lit, c ≠ '{') →
    (lit ++ rest).length ≤ f → getVarsAux f (lit ++ rest) = getVariables rest := by
  intro f
  induction f with
  | zero =>
    intro lit rest _ hf
    have : lit ++ rest = [] := List.length_eq_zero.mp (Nat.le_zero.mp hf)
    rcases List.append_eq_nil.mp this with ⟨h1, h2⟩
    subst h1; subst h2
    simp [getVariables, getVarsAux_nil]
  | succ f ih =>
    intro lit rest hlit hf
    cases lit with
    | nil =>
      simp only [List.nil_append] at hf ⊢
      exact getVarsAux_fuel _ _ _ hf (le_refl _)
    | cons c lit' =>
      have hc : c ≠ '{' := hlit c (by simp)
      simp only [List.cons_append, getVarsAux, if_neg hc]
      exact ih lit' rest (fun x hx => hlit x (by simp [hx])) (by simpa using Nat.le_of_succ_le_succ (by simpa using hf))

theorem getVariables_append_lit (lit rest : Str) (h : ∀ c ∈ lit, c ≠ '{') :
    getVariables (lit ++ rest) = getVariables rest :=
  getVarsAux_append_lit _ lit rest h (le_refl _)

theorem dropWhile_no_rbrace : ∀ (p : Str) (xs : Str), (∀ c ∈ p, c ≠ '}') →
    (p ++ '}' :: xs).dropWhile (fun c => c != '}') = '}' :: xs := by
  intro p
  induction p with
  | nil => intro xs _; simp [List.dropWhile]
  | cons c p' ih =>
    intro xs h
    have hc : c ≠ '}' := h c (by simp)
    rw [List.cons_append, List.dropWhile_cons, if_pos (by simpa using hc)]
    exact ih xs (fun x hx => h x (by simp [hx]))

theorem takeWhile_no_rbrace : ∀ (p : Str) (xs : Str), (∀ c ∈ p, c ≠ '}') →
    (p ++ '}' :: xs).takeWhile (fun c => c != '}') = p := by
  intro p
  induction p with
  | nil => intro xs _; simp [List.takeWhile]
  | cons c p' ih =>
    intro xs h
    have hc : c ≠ '}' := h c (by simp)
    rw [List.cons_append, List.takeWhile_cons, if_pos (by simpa using hc)]
    rw [ih xs (fun x hx => h x (by simp [hx]))]

theorem stripBraces_append_rr : ∀ (p : Str), (∀ c ∈ p, c ≠ '{' ∧ c ≠ '}') →
    stripBraces (p ++ ('}' :: '}' :: [])) = p := by
  intro p
  induction p with
  | nil => intro _; simp [stripBraces]
  | cons c p' ih =>
    intro h
    have hc := h c (by simp)
    cases p' with
    | nil =>
      simp only [List.cons_append, List.nil_append]
      show stripBraces (c :: '}' :: '}' :: []) = c :: []
      rw [stripBraces]
      rw [if_neg (by simp [hc.1]), if_neg (by simp [hc.2])]
      simp [stripBraces]
    | cons e p'' =>
      have he := h e (by simp)
      simp only [List.cons_append]
      show stripBraces (c :: (e :: (p'' ++ ('}' :: '}' :: [])))) = c :: e :: p''
      rw [show (p'' ++ ('}' :: '}' :: [])) = (p'' ++ ('}' :: '}' :: [])) from rfl]
      rw [stripBraces]
      rw [if_neg (by simp [hc.1]), if_neg (by simp [hc.2])]
      have := ih (fun x hx => h x (by simp [hx]))
      simp only [List.cons_append] at this
      rw [this]

theorem matchAt_append (name rest : Str) (hne : name ≠ [])
    (hn : ∀ c ∈ name, c ≠ '{' ∧ c ≠ '}') :
    matchAt (name ++ ('}' :: '}' :: rest)) = some (name, rest) := by
  unfold matchAt
  have hd : (name ++ '}' :: '}' :: rest).dropWhile (fun c => c != '}') = '}' :: ('}' :: rest) :=
    dropWhile_no_rbrace name ('}' :: rest) (fun c hc => (hn c hc).2)
  have htk : (name ++ '}' :: '}' :: rest).takeWhile (fun c => c != '}') = name :=
    takeWhile_no_rbrace name ('}' :: rest) (fun c hc => (hn c hc).2)
  rw [hd]
  simp only [htk]
  rw [if_neg (by simpa using hne)]
  have hs : stripBraces ('{' :: '{' :: (name ++ ('}' :: '}' :: []))) = name := by
    rw [stripBraces]
    rw [if_pos (by simp)]
    exact stripBraces_append_rr name hn
  rw [hs]

theorem getVariables_cons_var (name tail : Str) (hne : name ≠ [])
    (hn : ∀ c ∈ name, c ≠ '{' ∧ c ≠ '}') :
    getVariables ('{' :: '{' :: (name ++ ('}' :: '}' :: tail))) = name :: getVariables tail := by
  show getVarsAux (('{' :: '{' :: (name ++ ('}' :: '}' :: tail))).length) _ = _
  simp only [List.length_cons]
  rw [getVarsAux]
  rw [if_pos rfl, if_pos rfl]
  simp only [matchAt_append name tail hne hn]
  have : getVarsAux ((name ++ '}' :: '}' :: tail).length + 1) tail = getVariables tail := by
    apply getVarsAux_fuel
    · simp [List.length_append]; omega
    · exact le_refl _
  rw [this]

/-- Claim C7 (amended): the Variable Resolver returns the *list* of
placeholder-name occurrences in textual order, one entry per regex match
with duplicates preserved (a multiset, not the set the claim states — see
the counterexample); in particular, on any template assembled from
brace-free literal segments and nonempty brace-free placeholder names it
returns exactly the sequence of placeholder names in occurrence order, so
the set of distinct names it represents is the set of placeholders
referenced. -/
theorem getVariables_renderTemplate (parts : List (Sum Str Str))
    (h : ∀ p ∈ parts, wellFormedPart p = true) :
    getVariables (renderTemplate parts) = placeholdersOf parts := by
  induction parts with
  | nil => rfl
  | cons p ps ih =>
    have hps := ih (fun q hq => h q (by simp [hq]))
    cases p with
    | inl lit =>
      have hlit : ∀ c ∈ lit, c ≠ '{' := by
        have := h (Sum.inl lit) (by simp)
        simp only [wellFormedPart, List.all_eq_true] at this
        intro c hc
        simpa using this c hc
      show getVariables (lit ++ renderTemplate ps) = placeholdersOf ps
      rw [getVariables_append_lit lit _ hlit, hps]
    | inr v =>
      have hv := h (Sum.inr v) (by simp)
      simp only [wellFormedPart, Bool.and_eq_true, List.all_eq_true] at hv
      have hne : v ≠ [] := by
        intro hv0; rw [hv0] at hv; simp at hv
      have hn : ∀ c ∈ v, c ≠ '{' ∧ c ≠ '}' := by
        intro c hc
        have h2 := hv.2 c hc
        simp only [Bool.and_eq_true, bne_iff_ne, ne_eq] at h2
        exact h2
      show getVariables (('{' :: '{' :: (v ++ ('}' :: '}' :: []))) ++ renderTemplate ps) =
        v :: placeholdersOf ps
      have : ('{' :: '{' :: (v ++ ('}' :: '}' :: []))) ++ renderTemplate ps =
          '{' :: '{' :: (v ++ ('}' :: '}' :: renderTemplate ps)) := by
        simp [List.append_assoc]
      rw [this, getVariables_cons_var v _ hne hn, hps]

/-! ## Lemmas about the scheduler -/

theorem findReady_perm {versions : List PromptVersion} {edges : List WorkflowEdge}
    {ctx : VarMap} {processed : List Str} :
    ∀ {l : List WorkflowNode} {nr : WorkflowNode × List WorkflowNode},
      findReady versions edges ctx processed l = some nr → l.Perm (nr.1 :: nr.2) := by
  intro l
  induction l with
  | nil => intro nr h; simp [findReady] at h
  | cons n rest ih =>
    intro nr h
    by_cases hr : isReady versions edges ctx processed n = true
    · simp only [findReady, if_pos hr] at h
      cases h
      exact List.Perm.refl _
    · simp only [findReady, if_neg hr] at h
      cases hm : findReady versions edges ctx processed rest with
      | none => rw [hm] at h; exact absurd h (by simp)
      | some mr =>
        rw [hm] at h
        obtain ⟨m, rest'⟩ := mr
        cases h
        have h1 : rest.Perm (m :: rest') := ih hm
        exact ((h1.cons n).trans (List.Perm.swap m n rest'))

theorem findReady_isReady {versions : List PromptVersion} {edges : List WorkflowEdge}
    {ctx : VarMap} {processed : List Str} :
    ∀ {l : List WorkflowNode} {nr : WorkflowNode × List WorkflowNode},
      findReady versions edges ctx processed l = some nr →
      isReady versions edges ctx processed nr.1 = true := by
  intro l
  induction l with
  | nil => intro nr h; simp [findReady] at h
  | cons n rest ih =>
    intro nr h
    by_cases hr : isReady versions edges ctx processed n = true
    · simp only [findReady, if_pos hr] at h
      cases h
      exact hr
    · simp only [findReady, if_neg hr] at h
      cases hm : findReady versions edges ctx processed rest with
      | none => rw [hm] at h; exact absurd h (by simp)
      | some mr =>
        rw [hm] at h
        obtain ⟨m, rest'⟩ := mr
        cases h
        simpa using ih hm

/-! ## Basic lemmas about the loop -/

theorem runLoop_succ (gen : GenStub) (nodes : List WorkflowNode) (edges : List WorkflowEdge)
    (versions : List PromptVersion) (apis : List LLMConfig) (f : Nat) (st : EngineState) :
    runLoop gen nodes edges versions apis (f + 1) st =
      match loopIter gen nodes edges versions apis st with
      | StepOut.halt st' => st'
      | StepOut.next st' => runLoop gen nodes edges versions apis f st' := rfl

theorem loopIter_empty (gen : GenStub) (nodes : List WorkflowNode) (edges : List WorkflowEdge)
    (versions : List PromptVersion) (apis : List LLMConfig) {st : EngineState}
    (h : st.remaining = []) : loopIter gen nodes edges versions apis st = StepOut.halt st := by
  simp [loopIter, h]

theorem runLoop_empty (gen : GenStub) (nodes : List WorkflowNode) (edges : List WorkflowEdge)
    (versions : List PromptVersion) (apis : List LLMConfig) (st : EngineState)
    (h : st.remaining = []) (f : Nat) : runLoop gen nodes edges versions apis f st = st := by
  cases f with
  | zero => rfl
  | succ f => simp [runLoop, loopIter_empty gen nodes edges versions apis h]

theorem runLoop_no_ready (gen : GenStub) (nodes : List WorkflowNode) (edges : List WorkflowEdge)
    (versions : List PromptVersion) (apis : List LLMConfig) (st : EngineState)
    (h : findReady versions edges st.ctx st.processed st.remaining = none) (f : Nat) :
    runLoop gen nodes edges versions apis f st = st := by
  cases f with
  | zero => rfl
  | succ f =>
    cases hemp : st.remaining.isEmpty with
    | true => simp [runLoop, loopIter, hemp]
    | false => simp [runLoop, loopIter, hemp, h]

/-- Case analysis on one pass of the loop body: every outcome of
`loopIter` is one of the six explicit shapes. -/
theorem loopIter_elim (gen : GenStub) (nodes : List WorkflowNode) (edges : List WorkflowEdge)
    (versions : List PromptVersion) (apis : List LLMConfig) (st : EngineState)
    (motive : StepOut → Prop)
    (hempty : st.remaining.isEmpty = true → motive (StepOut.halt st))
    (hnone : findReady versions edges st.ctx st.processed st.remaining = none →
      motive (StepOut.halt st))
    (hok : ∀ (node : WorkflowNode) (rest : List WorkflowNode) (ot : Str × VarMap),
      findReady versions edges st.ctx st.processed st.remaining = some (node, rest) →
      node.type = NodeType.llm →
      execLlm gen nodes edges versions apis st.ctx node = Except.ok ot →
      motive (StepOut.next { remaining := rest,
                             ctx := ot.2,
                             processed := node.id :: st.processed,
                             steps := st.steps ++ [successStep node ot.1],
                             status := st.status,
                             outputs := st.outputs }))
    (herr : ∀ (node : WorkflowNode) (rest : List WorkflowNode) (msg : Str),
      findReady versions edges st.ctx st.processed st.remaining = some (node, rest) →
      node.type = NodeType.llm →
      execLlm gen nodes edges versions apis st.ctx node = Except.error msg →
      motive (StepOut.halt { remaining := rest,
                             ctx := st.ctx,
                             processed := st.processed,
                             steps := st.steps ++ [errorStep node msg],
                             status := RunStatus.error,
                             outputs := st.outputs }))
    (hend : ∀ (node : WorkflowNode) (rest : List WorkflowNode),
      findReady versions edges st.ctx st.processed st.remaining = some (node, rest) →
      node.type = NodeType.endNode →
      motive (StepOut.next { remaining := rest,
                             ctx := st.ctx,
                             processed := node.id :: st.processed,
                             steps := st.steps ++ [successStep node (execEnd nodes edges st.ctx node)],
                             status := st.status,
                             outputs := objSet st.outputs finalKey (execEnd nodes edges st.ctx node) }))
    (hstart : ∀ (node : WorkflowNode) (rest : List WorkflowNode),
      findReady versions edges st.ctx st.processed st.remaining = some (node, rest) →
      node.type = NodeType.start →
      motive (StepOut.next { remaining := rest,
                             ctx := st.ctx,
                             processed := node.id :: st.processed,
                             steps := st.steps ++ [successStep node []],
                             status := st.status,
                             outputs := st.outputs })) :
    motive (loopIter gen nodes edges versions apis st) := by
  unfold loopIter
  cases hemp : st.remaining.isEmpty with
  | true => simp only [if_pos]; exact hempty hemp
  | false =>
    rw [if_neg (by simp [hemp])]
    cases hfind : findReady versions edges st.ctx st.processed st.remaining with
    | none => exact hnone hfind
    | some nr =>
      obtain ⟨node, rest⟩ := nr
      cases hty : node.type with
      | llm =>
        cases hexec : execLlm gen nodes edges versions apis st.ctx node with
        | ok ot => simpa only [hty, hexec] using hok node rest ot hfind hty hexec
        | error msg => simpa only [hty, hexec] using herr node rest msg hfind hty hexec
      | endNode => simpa only [hty] using hend node rest hfind hty
      | start => simpa only [hty] using hstart node rest hfind hty

/-! ## The status invariant: an error step is terminal -/

theorem loopIter_statusInv (gen : GenStub) (nodes : List WorkflowNode)
    (edges : List WorkflowEdge) (versions : List PromptVersion) (apis : List LLMConfig)
    (st : EngineState) (hS : InvS st) :
    (∀ s', loopIter gen nodes edges versions apis st = StepOut.next s' → InvS s') ∧
    (∀ s', loopIter gen nodes edges versions apis st = StepOut.halt s' →
      InvS s' ∨ InvE s') := by
  apply loopIter_elim gen nodes edges versions apis st
    (motive := fun out =>
      (∀ s', out = StepOut.next s' → InvS s') ∧
      (∀ s', out = StepOut.halt s' → InvS s' ∨ InvE s'))
  · intro _
    exact ⟨fun s' h => StepOut.noConfusion h, fun s' h => by cases h; exact Or.inl hS⟩
  · intro _
    exact ⟨fun s' h => StepOut.noConfusion h, fun s' h => by cases h; exact Or.inl hS⟩
  · intro node rest ot _ _ _
    refine ⟨fun s' h => ?_, fun s' h => StepOut.noConfusion h⟩
    cases h
    refine ⟨hS.1, ?_⟩
    intro s hs
    rcases List.mem_append.mp hs with hs | hs
    · exact hS.2 s hs
    · simp only [List.mem_singleton] at hs
      rw [hs]
      rfl
  · intro node rest msg _ _ _
    refine ⟨fun s' h => StepOut.noConfusion h, fun s' h => ?_⟩
    cases h
    refine Or.inr ⟨rfl, st.steps, errorStep node msg, rfl, rfl, hS.2⟩
  · intro node rest _ _
    refine ⟨fun s' h => ?_, fun s' h => StepOut.noConfusion h⟩
    cases h
    refine ⟨hS.1, ?_⟩
    intro s hs
    rcases List.mem_append.mp hs with hs | hs
    · exact hS.2 s hs
    · simp only [List.mem_singleton] at hs
      rw [hs]
      rfl
  · intro node rest _ _
    refine ⟨fun s' h => ?_, fun s' h => StepOut.noConfusion h⟩
    cases h
    refine ⟨hS.1, ?_⟩
    intro s hs
    rcases List.mem_append.mp hs with hs | hs
    · exact hS.2 s hs
    · simp only [List.mem_singleton] at hs
      rw [hs]
      rfl

theorem runLoop_statusInv (gen : GenStub) (nodes : List WorkflowNode)
    (edges : List WorkflowEdge) (versions : List PromptVersion) (apis : List LLMConfig)
    (f : Nat) (st : EngineState) (hS : InvS st) :
    InvS (runLoop gen nodes edges versions apis f st) ∨
    InvE (runLoop gen nodes edges versions apis f st) := by
  induction f generalizing st with
  | zero => exact Or.inl hS
  | succ f ih =>
    rw [runLoop_succ]
    cases h : loopIter gen nodes edges versions apis st with
    | halt s' =>
      exact (loopIter_statusInv gen nodes edges versions apis st hS).2 s' h
    | next s' =>
      exact ih s' ((loopIter_statusInv gen nodes edges versions apis st hS).1 s' h)

/-! ## Steps grow monotonically -/

theorem loopIter_steps (gen : GenStub) (nodes : List WorkflowNode)
    (edges : List WorkflowEdge) (versions : List PromptVersion) (apis : List LLMConfig)
    (st : EngineState) :
    (∀ s', loopIter gen nodes edges versions apis st = StepOut.next s' →
      ∃ t, s'.steps = st.steps ++ t) ∧
    (∀ s', loopIter gen nodes edges versions apis st = StepOut.halt s' →
      ∃ t, s'.steps = st.steps ++ t) := by
  apply loopIter_elim gen nodes edges versions apis st
    (motive := fun out =>
      (∀ s', out = StepOut.next s' → ∃ t, s'.steps = st.steps ++ t) ∧
      (∀ s', out = StepOut.halt s' → ∃ t, s'.steps = st.steps ++ t))
  · intro _
    exact ⟨fun s' h => StepOut.noConfusion h, fun s' h => by cases h; exact ⟨[], by simp⟩⟩
  · intro _
    exact ⟨fun s' h => StepOut.noConfusion h, fun s' h => by cases h; exact ⟨[], by simp⟩⟩
  · intro node rest ot _ _ _
    exact ⟨fun s' h => by cases h; exact ⟨_, rfl⟩, fun s' h => StepOut.noConfusion h⟩
  · intro node rest msg _ _ _
    exact ⟨fun s' h => StepOut.noConfusion h, fun s' h => by cases h; exact ⟨_, rfl⟩⟩
  · intro node rest _ _
    exact ⟨fun s' h => by cases h; exact ⟨_, rfl⟩, fun s' h => StepOut.noConfusion h⟩
  · intro node rest _ _
    exact ⟨fun s' h => by cases h; exact ⟨_, rfl⟩, fun s' h => StepOut.noConfusion h⟩

theorem runLoop_steps (gen : GenStub) (nodes : List WorkflowNode)
    (edges : List WorkflowEdge) (versions : List PromptVersion) (apis : List LLMConfig)
    (f : Nat) (st : EngineState) :
    ∃ t, (runLoop gen nodes edges versions apis f st).steps = st.steps ++ t := by
  induction f generalizing st with
  | zero => exact ⟨[], by simp [runLoop]⟩
  | succ f ih =>
    rw [runLoop_succ]
    cases h : loopIter gen nodes edges versions apis st with
    | halt s' =>
      exact (loopIter_steps gen nodes edges versions apis st).2 s' h
    | next s' =>
      obtain ⟨t1, h1⟩ := (loopIter_steps gen nodes edges versions apis st).1 s' h
      obtain ⟨t2, h2⟩ := ih s'
      exact ⟨t1 ++ t2, by rw [h2, h1, List.append_assoc]⟩

/-! ## Each node element is executed at most once -/

theorem loopIter_count (gen : GenStub) (nodes : List WorkflowNode)
    (edges : List WorkflowEdge) (versions : List PromptVersion) (apis : List LLMConfig)
    (st : EngineState) (id : Str) :
    (∀ s', loopIter gen nodes edges versions apis st = StepOut.next s' →
      s'.steps.countP (fun s => s.nodeId == id) + s'.remaining.countP (fun m => m.id == id) ≤
        st.steps.countP (fun s => s.nodeId == id) + st.remaining.countP (fun m => m.id == id)) ∧
    (∀ s', loopIter gen nodes edges versions apis st = StepOut.halt s' →
      s'.steps.countP (fun s => s.nodeId == id) + s'.remaining.countP (fun m => m.id == id) ≤
        st.steps.countP (fun s => s.nodeId == id) + st.remaining.countP (fun m => m.id == id)) := by
  apply loopIter_elim gen nodes edges versions apis st
    (motive := fun out =>
      (∀ s', out = StepOut.next s' →
        s'.steps.countP (fun s => s.nodeId == id) + s'.remaining.countP (fun m => m.id == id) ≤
          st.steps.countP (fun s => s.nodeId == id) +
            st.remaining.countP (fun m => m.id == id)) ∧
      (∀ s', out = StepOut.halt s' →
        s'.steps.countP (fun s => s.nodeId == id) + s'.remaining.countP (fun m => m.id == id) ≤
          st.steps.countP (fun s => s.nodeId == id) +
            st.remaining.countP (fun m => m.id == id)))
  · intro _
    exact ⟨fun s' h => StepOut.noConfusion h, fun s' h => by cases h; exact le_refl _⟩
  · intro _
    exact ⟨fun s' h => StepOut.noConfusion h, fun s' h => by cases h; exact le_refl _⟩
  · intro node rest ot hfind _ _
    refine ⟨fun s' h => ?_, fun s' h => StepOut.noConfusion h⟩
    cases h
    have hperm : st.remaining.countP (fun m => m.id == id) =
        (node :: rest).countP (fun m => m.id == id) := (findReady_perm hfind).countP_eq _
    simp only [List.countP_append, List.countP_cons, hperm]
    simp [successStep]
    omega
  · intro node rest msg hfind _ _
    refine ⟨fun s' h => StepOut.noConfusion h, fun s' h => ?_⟩
    cases h
    have hperm : st.remaining.countP (fun m => m.id == id) =
        (node :: rest).countP (fun m => m.id == id) := (findReady_perm hfind).countP_eq _
    simp only [List.countP_append, List.countP_cons, hperm]
    simp [errorStep]
    omega
  · intro node rest hfind _
    refine ⟨fun s' h => ?_, fun s' h => StepOut.noConfusion h⟩
    cases h
    have hperm : st.remaining.countP (fun m => m.id == id) =
        (node :: rest).countP (fun m => m.id == id) := (findReady_perm hfind).countP_eq _
    simp only [List.countP_append, List.countP_cons, hperm]
    simp [successStep]
    omega
  · intro node rest hfind _
    refine ⟨fun s' h => ?_, fun s' h => StepOut.noConfusion h⟩
    cases h
    have hperm : st.remaining.countP (fun m => m.id == id) =
        (node :: rest).countP (fun m => m.id == id) := (findReady_perm hfind).countP_eq _
    simp only [List.countP_append, List.countP_cons, hperm]
    simp [successStep]
    omega

theorem runLoop_count (gen : GenStub) (nodes : List WorkflowNode)
    (edges : List WorkflowEdge) (versions : List PromptVersion) (apis : List LLMConfig)
    (f : Nat) (st : EngineState) (id : Str) :
    (runLoop gen nodes edges versions apis f st).steps.countP (fun s => s.nodeId == id) +
      (runLoop gen nodes edges versions apis f st).remaining.countP (fun m => m.id == id) ≤
    st.steps.countP (fun s => s.nodeId == id) +
      st.remaining.countP (fun m => m.id == id) := by
  induction f generalizing st with
  | zero => exact le_refl _
  | succ f ih =>
    rw [runLoop_succ]
    cases h : loopIter gen nodes edges versions apis st with
    | halt s' =>
      exact (loopIter_count gen nodes edges versions apis st id).2 s' h
    | next s' =>
      exact le_trans (ih s') ((loopIter_count gen nodes edges versions apis st id).1 s' h)

/-! ## Invariants for the readiness claim -/

theorem publishOutput_keys {ctx : VarMap} {node : WorkflowNode} {text : Str} {k : Str}
    (hk : (objGet (publishOutput ctx node text) k).isSome) :
    k = rawKey node.id ∨ truthyOpt node.data.outputVariableName = some k ∨
      (objGet ctx k).isSome := by
  unfold publishOutput at hk
  rcases objGet_objSet_isSome hk with hk1 | hk1
  · exact Or.inl hk1
  · cases hov : truthyOpt node.data.outputVariableName with
    | some ov =>
      rw [hov] at hk1
      rcases objGet_objSet_isSome hk1 with hA | hA
      · exact Or.inr (Or.inl (congrArg some hA.symm))
      · exact Or.inr (Or.inr hA)
    | none =>
      rw [hov] at hk1
      exact Or.inr (Or.inr hk1)

theorem execLlm_ctx {gen : GenStub} {nodes : List WorkflowNode} {edges : List WorkflowEdge}
    {versions : List PromptVersion} {apis : List LLMConfig} {ctx : VarMap}
    {node : WorkflowNode} {ot : Str × VarMap}
    (h : execLlm gen nodes edges versions apis ctx node = Except.ok ot) :
    ∀ k, (objGet ot.2 k).isSome →
      k = rawKey node.id ∨ truthyOpt node.data.outputVariableName = some k ∨
        (objGet ctx k).isSome := by
  unfold execLlm at h
  split at h
  · exact absurd h (by simp)
  next version hv =>
    dsimp only at h
    split at h
    next msg hgen => exact absurd h (by simp)
    next text hgen =>
      cases h
      intro k hk
      exact publishOutput_keys hk

theorem selected_good {nodes : List WorkflowNode} {edges : List WorkflowEdge}
    {startInputs : VarMap} {versions : List PromptVersion} {n : WorkflowNode} {v : Str}
    (hvreq : v ∈ requiredVarsOf versions n)
    (hvin : objGet startInputs v = none)
    (hvout : ∀ m ∈ nodes, ¬ truthyOpt m.data.outputVariableName = some v)
    (hvraw : ∀ m ∈ nodes, ¬ rawKey m.id = v)
    (huniq : ∀ m ∈ nodes, m.id = n.id → m = n)
    {st : EngineState} (hctx : ctxKeysOK nodes startInputs st.ctx) (hproc : procOK st)
    (hrem : remOK nodes st) {node : WorkflowNode} {rest : List WorkflowNode}
    (hfind : findReady versions edges st.ctx st.processed st.remaining = some (node, rest)) :
    node ∈ nodes ∧ (node.id = n.id →
      ∃ e ∈ edges, e.target = n.id ∧ e.targetHandle = v ∧
        ∃ s ∈ st.steps, s.nodeId = e.source) := by
  have hperm := findReady_perm hfind
  have hmem : node ∈ st.remaining := hperm.mem_iff.mpr (by simp)
  have hnn : node ∈ nodes := hrem node hmem
  refine ⟨hnn, fun hid => ?_⟩
  have heq : node = n := huniq node hnn hid
  subst heq
  have hready := findReady_isReady hfind
  simp only [isReady] at hready
  have hall := List.all_eq_true.mp hready
  have hv := hall v hvreq
  simp only at hv
  cases hget : objGet st.ctx v with
  | some val =>
    have := hctx v (by rw [hget]; rfl)
    rcases this with h1 | h1 | h1
    · rw [hvin] at h1; simp at h1
    · obtain ⟨nd, hnd, h2⟩ := h1
      exact absurd h2 (hvout nd hnd)
    · obtain ⟨nd, hnd, h2⟩ := h1
      exact absurd h2.symm (hvraw nd hnd)
  | none =>
    rw [hget] at hv
    cases hfe : edges.find? (fun e => e.target == node.id && e.targetHandle == v) with
    | none => rw [hfe] at hv; simp at hv
    | some e =>
      rw [hfe] at hv
      have hsrc : e.source ∈ st.processed := by simpa using hv
      have hpred := List.find?_some hfe
      simp only [Bool.and_eq_true, beq_iff_eq] at hpred
      have hmem_e : e ∈ edges := List.mem_of_find?_eq_some hfe
      obtain ⟨s, hs, hss⟩ := hproc e.source hsrc
      exact ⟨e, hmem_e, hpred.1, hpred.2, s, hs, hss⟩

theorem loopIter_inv2 (gen : GenStub) (nodes : List WorkflowNode) (edges : List WorkflowEdge)
    (versions : List PromptVersion) (apis : List LLMConfig) (startInputs : VarMap)
    (n : WorkflowNode) (v : Str)
    (hvreq : v ∈ requiredVarsOf versions n)
    (hvin : objGet startInputs v = none)
    (hvout : ∀ m ∈ nodes, ¬ truthyOpt m.data.outputVariableName = some v)
    (hvraw : ∀ m ∈ nodes, ¬ rawKey m.id = v)
    (huniq : ∀ m ∈ nodes, m.id = n.id → m = n)
    (st : EngineState) (h2 : inv2 nodes edges startInputs n v st) :
    (∀ s', loopIter gen nodes edges versions apis st = StepOut.next s' →
      inv2 nodes edges startInputs n v s') ∧
    (∀ s', loopIter gen nodes edges versions apis st = StepOut.halt s' →
      inv2 nodes edges startInputs n v s') := by
  obtain ⟨hctx, hproc, hrem, hgood⟩ := h2
  apply loopIter_elim gen nodes edges versions apis st
    (motive := fun out =>
      (∀ s', out = StepOut.next s' → inv2 nodes edges startInputs n v s') ∧
      (∀ s', out = StepOut.halt s' → inv2 nodes edges startInputs n v s'))
  · intro _
    exact ⟨fun s' h => StepOut.noConfusion h,
      fun s' h => by cases h; exact ⟨hctx, hproc, hrem, hgood⟩⟩
  · intro _
    exact ⟨fun s' h => StepOut.noConfusion h,
      fun s' h => by cases h; exact ⟨hctx, hproc, hrem, hgood⟩⟩
  · intro node rest ot hfind _ hexec
    have hsg := selected_good hvreq hvin hvout hvraw huniq hctx hproc hrem hfind
    have hperm := findReady_perm hfind
    refine ⟨fun s' h => ?_, fun s' h => StepOut.noConfusion h⟩
    cases h
    refine ⟨?_, ?_, ?_, ?_⟩
    · intro k hk
      rcases execLlm_ctx hexec k hk with h1 | h1 | h1
      · exact Or.inr (Or.inr ⟨node, hsg.1, h1⟩)
      · exact Or.inr (Or.inl ⟨node, hsg.1, h1⟩)
      · exact hctx k h1
    · intro p hp
      rcases List.mem_cons.mp hp with hp | hp
      · exact ⟨successStep node ot.1, List.mem_append.mpr (Or.inr (by simp)),
          by rw [hp]; rfl⟩
      · obtain ⟨s, hs, hss⟩ := hproc p hp
        exact ⟨s, List.mem_append.mpr (Or.inl hs), hss⟩
    · intro m hm
      exact hrem m (hperm.mem_iff.mpr (List.mem_cons_of_mem _ hm))
    · intro hex
      obtain ⟨s, hs, hss⟩ := hex
      rcases List.mem_append.mp hs with hs1 | hs1
      · obtain ⟨e, he, h1, h2, s2, hs2, hss2⟩ := hgood ⟨s, hs1, hss⟩
        exact ⟨e, he, h1, h2, s2, List.mem_append.mpr (Or.inl hs2), hss2⟩
      · simp only [List.mem_singleton] at hs1
        subst hs1
        obtain ⟨e, he, h1, h2, s2, hs2, hss2⟩ := hsg.2 hss
        exact ⟨e, he, h1, h2, s2, List.mem_append.mpr (Or.inl hs2), hss2⟩
  · intro node rest msg hfind _ _
    have hsg := selected_good hvreq hvin hvout hvraw huniq hctx hproc hrem hfind
    have hperm := findReady_perm hfind
    refine ⟨fun s' h => StepOut.noConfusion h, fun s' h => ?_⟩
    cases h
    refine ⟨hctx, ?_, ?_, ?_⟩
    · intro p hp
      obtain ⟨s, hs, hss⟩ := hproc p hp
      exact ⟨s, List.mem_append.mpr (Or.inl hs), hss⟩
    · intro m hm
      exact hrem m (hperm.mem_iff.mpr (List.mem_cons_of_mem _ hm))
    · intro hex
      obtain ⟨s, hs, hss⟩ := hex
      rcases List.mem_append.mp hs with hs1 | hs1
      · obtain ⟨e, he, h1, h2, s2, hs2, hss2⟩ := hgood ⟨s, hs1, hss⟩
        exact ⟨e, he, h1, h2, s2, List.mem_append.mpr (Or.inl hs2), hss2⟩
      · simp only [List.mem_singleton] at hs1
        subst hs1
        obtain ⟨e, he, h1, h2, s2, hs2, hss2⟩ := hsg.2 hss
        exact ⟨e, he, h1, h2, s2, List.mem_append.mpr (Or.inl hs2), hss2⟩
  · intro node rest hfind _
    have hsg := selected_good hvreq hvin hvout hvraw huniq hctx hproc hrem hfind
    have hperm := findReady_perm hfind
    refine ⟨fun s' h => ?_, fun s' h => StepOut.noConfusion h⟩
    cases h
    refine ⟨hctx, ?_, ?_, ?_⟩
    · intro p hp
      rcases List.mem_cons.mp hp with hp | hp
      · exact ⟨successStep node (execEnd nodes edges st.ctx node),
          List.mem_append.mpr (Or.inr (by simp)), by rw [hp]; rfl⟩
      · obtain ⟨s, hs, hss⟩ := hproc p hp
        exact ⟨s, List.mem_append.mpr (Or.inl hs), hss⟩
    · intro m hm
      exact hrem m (hperm.mem_iff.mpr (List.mem_cons_of_mem _ hm))
    · intro hex
      obtain ⟨s, hs, hss⟩ := hex
      rcases List.mem_append.mp hs with hs1 | hs1
      · obtain ⟨e, he, h1, h2, s2, hs2, hss2⟩ := hgood ⟨s, hs1, hss⟩
        exact ⟨e, he, h1, h2, s2, List.mem_append.mpr (Or.inl hs2), hss2⟩
      · simp only [List.mem_singleton] at hs1
        subst hs1
        obtain ⟨e, he, h1, h2, s2, hs2, hss2⟩ := hsg.2 hss
        exact ⟨e, he, h1, h2, s2, List.mem_append.mpr (Or.inl hs2), hss2⟩
  · intro node rest hfind _
    have hsg := selected_good hvreq hvin hvout hvraw huniq hctx hproc hrem hfind
    have hperm := findReady_perm hfind
    refine ⟨fun s' h => ?_, fun s' h => StepOut.noConfusion h⟩
    cases h
    refine ⟨hctx, ?_, ?_, ?_⟩
    · intro p hp
      rcases List.mem_cons.mp hp with hp | hp
      · exact ⟨successStep node [], List.mem_append.mpr (Or.inr (by simp)),
          by rw [hp]; rfl⟩
      · obtain ⟨s, hs, hss⟩ := hproc p hp
        exact ⟨s, List.mem_append.mpr (Or.inl hs), hss⟩
    · intro m hm
      exact hrem m (hperm.mem_iff.mpr (List.mem_cons_of_mem _ hm))
    · intro hex
      obtain ⟨s, hs, hss⟩ := hex
      rcases List.mem_append.mp hs with hs1 | hs1
      · obtain ⟨e, he, h1, h2, s2, hs2, hss2⟩ := hgood ⟨s, hs1, hss⟩
        exact ⟨e, he, h1, h2, s2, List.mem_append.mpr (Or.inl hs2), hss2⟩
      · simp only [List.mem_singleton] at hs1
        subst hs1
        obtain ⟨e, he, h1, h2, s2, hs2, hss2⟩ := hsg.2 hss
        exact ⟨e, he, h1, h2, s2, List.mem_append.mpr (Or.inl hs2), hss2⟩

theorem runLoop_inv2 (gen : GenStub) (nodes : List WorkflowNode) (edges : List WorkflowEdge)
    (versions : List PromptVersion) (apis : List LLMConfig) (startInputs : VarMap)
    (n : WorkflowNode) (v : Str)
    (hvreq : v ∈ requiredVarsOf versions n)
    (hvin : objGet startInputs v = none)
    (hvout : ∀ m ∈ nodes, ¬ truthyOpt m.data.outputVariableName = some v)
    (hvraw : ∀ m ∈ nodes, ¬ rawKey m.id = v)
    (huniq : ∀ m ∈ nodes, m.id = n.id → m = n)
    (f : Nat) (st : EngineState) (h2 : inv2 nodes edges startInputs n v st) :
    inv2 nodes edges startInputs n v (runLoop gen nodes edges versions apis f st) := by
  induction f generalizing st with
  | zero => exact h2
  | succ f ih =>
    rw [runLoop_succ]
    cases h : loopIter gen nodes edges versions apis st with
    | halt s' =>
      exact (loopIter_inv2 gen nodes edges versions apis startInputs n v
        hvreq hvin hvout hvraw huniq st h2).2 s' h
    | next s' =>
      exact ih s' ((loopIter_inv2 gen nodes edges versions apis startInputs n v
        hvreq hvin hvout hvraw huniq st h2).1 s' h)

/-! ## The engine-level invariants -/

theorem engine_statusInv (gen : GenStub) (nodes : List WorkflowNode)
    (edges : List WorkflowEdge) (startInputs : VarMap) (versions : List PromptVersion)
    (apis : List LLMConfig) :
    ((executeWorkflowEngine gen nodes edges startInputs versions apis).status =
        RunStatus.success ∧
      okSteps (executeWorkflowEngine gen nodes edges startInputs versions apis).steps) ∨
    ((executeWorkflowEngine gen nodes edges startInputs versions apis).status =
        RunStatus.error ∧
      ∃ pre last, (executeWorkflowEngine gen nodes edges startInputs versions apis).steps =
          pre ++ [last] ∧
        last.status = RunStatus.error ∧ okSteps pre) := by
  unfold executeWorkflowEngine
  dsimp only
  have hS : InvS
      { remaining := nodes.filter (fun n => !(n.type == NodeType.start)),
        ctx := startInputs,
        processed :=
          match nodes.find? (fun n => n.type == NodeType.start) with
          | some s => [s.id]
          | none => [],
        steps :=
          match nodes.find? (fun n => n.type == NodeType.start) with
          | some s => [successStep s (jsonStringify startInputs)]
          | none => [],
        status := RunStatus.success,
        outputs := [] } := by
    refine ⟨rfl, ?_⟩
    cases nodes.find? (fun n => n.type == NodeType.start) with
    | some s =>
      intro x hx
      simp only [List.mem_singleton] at hx
      rw [hx]
      rfl
    | none => intro x hx; simp at hx
  rcases runLoop_statusInv gen nodes edges versions apis 100 _ hS with h | h
  · exact Or.inl h
  · exact Or.inr h

theorem engine_inv2 (gen : GenStub) (nodes : List WorkflowNode) (edges : List WorkflowEdge)
    (startInputs : VarMap) (versions : List PromptVersion) (apis : List LLMConfig)
    (n : WorkflowNode) (v : Str)
    (hty : n.type = NodeType.llm)
    (hvreq : v ∈ requiredVarsOf versions n)
    (hvin : objGet startInputs v = none)
    (hvout : ∀ m ∈ nodes, ¬ truthyOpt m.data.outputVariableName = some v)
    (hvraw : ∀ m ∈ nodes, ¬ rawKey m.id = v)
    (huniq : ∀ m ∈ nodes, m.id = n.id → m = n) :
    (∃ s ∈ (executeWorkflowEngine gen nodes edges startInputs versions apis).steps,
        s.nodeId = n.id) →
      ∃ e ∈ edges, e.target = n.id ∧ e.targetHandle = v ∧
        ∃ s ∈ (executeWorkflowEngine gen nodes edges startInputs versions apis).steps,
          s.nodeId = e.source := by
  unfold executeWorkflowEngine
  dsimp only
  have h0 : inv2 nodes edges startInputs n v
      { remaining := nodes.filter (fun m => !(m.type == NodeType.start)),
        ctx := startInputs,
        processed :=
          match nodes.find? (fun m => m.type == NodeType.start) with
          | some s => [s.id]
          | none => [],
        steps :=
          match nodes.find? (fun m => m.type == NodeType.start) with
          | some s => [successStep s (jsonStringify startInputs)]
          | none => [],
        status := RunStatus.success,
        outputs := [] } := by
    refine ⟨?_, ?_, ?_, ?_⟩
    · intro k hk
      exact Or.inl hk
    · cases hf : nodes.find? (fun m => m.type == NodeType.start) with
      | some s =>
        intro p hp
        simp only [List.mem_singleton] at hp
        exact ⟨successStep s (jsonStringify startInputs), by simp, hp.symm ▸ rfl⟩
      | none => intro p hp; simp at hp
    · intro m hm
      exact List.mem_of_mem_filter hm
    · cases hf : nodes.find? (fun m => m.type == NodeType.start) with
      | some s0 =>
        intro hex
        obtain ⟨s, hs, hss⟩ := hex
        simp only [List.mem_singleton] at hs
        subst hs
        have hs0id : s0.id = n.id := hss
        have hs0 : s0 = n := huniq s0 (List.mem_of_find?_eq_some hf) hs0id
        have hst : s0.type = NodeType.start := by
          have := List.find?_some hf
          simpa using this
        rw [hs0, hty] at hst
        exact absurd hst (by simp)
      | none =>
        intro hex
        obtain ⟨s, hs, _⟩ := hex
        simp at hs
  have hfin := runLoop_inv2 gen nodes edges versions apis startInputs n v
    hvreq hvin hvout hvraw huniq 100 _ h0
  exact hfin.2.2.2

/-! ## Claim theorems -/

/-- Claim C1 (confirmed): if any logged step is an error step, the run
log's status is `error`, that step is the final step of the log (so no
node after it in scheduling order executed, and the step list length
equals the number of nodes processed up to and including the failing one),
and every other step is a success step.  The error step's output is the
raised message by construction of `errorStep` inside `loopIter`. -/
theorem error_step_is_terminal (gen : GenStub) (nodes : List WorkflowNode)
    (edges : List WorkflowEdge) (startInputs : VarMap) (versions : List PromptVersion)
    (apis : List LLMConfig) (s : RunStep)
    (hs : s ∈ (executeWorkflowEngine gen nodes edges startInputs versions apis).steps)
    (herr : s.status = RunStatus.error) :
    (executeWorkflowEngine gen nodes edges startInputs versions apis).status =
        RunStatus.error ∧
    (executeWorkflowEngine gen nodes edges startInputs versions apis).steps.getLast? =
        some s ∧
    ∀ s' ∈ (executeWorkflowEngine gen nodes edges startInputs versions apis).steps,
      s' ≠ s → s'.status = RunStatus.success := by
  rcases engine_statusInv gen nodes edges startInputs versions apis with h | h
  · exact absurd (h.2 s hs) (by rw [herr]; simp)
  · obtain ⟨hstat, pre, last, hsteps, hlast, hpre⟩ := h
    have hsl : s = last := by
      rw [hsteps] at hs
      rcases List.mem_append.mp hs with h1 | h1
      · exact absurd (hpre s h1) (by rw [herr]; simp)
      · simpa using h1
    subst hsl
    refine ⟨hstat, ?_, ?_⟩
    · rw [hsteps]
      exact List.getLast?_concat _
    · intro s' hs' hne
      rw [hsteps] at hs'
      rcases List.mem_append.mp hs' with h1 | h1
      · exact hpre s' h1
      · simp only [List.mem_singleton] at h1
        exact absurd h1 hne

/-- Claim C9 (confirmed): the engine is a total function returning a
`WorkflowRunLog` — exceptions of the external call and of the executor
are values of `Except` caught inside `execLlm`/`loopIter`, never escaping
— and the log's status alone reports failure: the status is `error`
exactly when some step is an error step. -/
theorem run_total_status_iff_error_step (gen : GenStub) (nodes : List WorkflowNode)
    (edges : List WorkflowEdge) (startInputs : VarMap) (versions : List PromptVersion)
    (apis : List LLMConfig) :
    (executeWorkflowEngine gen nodes edges startInputs versions apis).status =
        RunStatus.error ↔
      ∃ s ∈ (executeWorkflowEngine gen nodes edges startInputs versions apis).steps,
        s.status = RunStatus.error := by
  rcases engine_statusInv gen nodes edges startInputs versions apis with h | h
  · constructor
    · intro hc
      rw [h.1] at hc
      exact absurd hc (by simp)
    · intro ⟨s, hs, herr⟩
      exact absurd (h.2 s hs) (by rw [herr]; simp)
  · obtain ⟨hstat, pre, last, hsteps, hlast, _⟩ := h
    constructor
    · intro _
      exact ⟨last, by rw [hsteps]; simp, hlast⟩
    · intro _
      exact hstat

/-- Claim C5 (confirmed): exhausting the iteration fuel or finding no
ready node stops the loop with the state unchanged — no further node
executes and the status is untouched — and a run in which every executed
node succeeded has status `success`: the stop itself is never reported as
an error. -/
theorem scheduler_stop_not_error (gen : GenStub) (nodes : List WorkflowNode)
    (edges : List WorkflowEdge) (versions : List PromptVersion) (apis : List LLMConfig) :
    (∀ st : EngineState, runLoop gen nodes edges versions apis 0 st = st) ∧
    (∀ (f : Nat) (st : EngineState),
      findReady versions edges st.ctx st.processed st.remaining = none →
      runLoop gen nodes edges versions apis f st = st) ∧
    (∀ startInputs : VarMap,
      (∀ s ∈ (executeWorkflowEngine gen nodes edges startInputs versions apis).steps,
        s.status = RunStatus.success) →
      (executeWorkflowEngine gen nodes edges startInputs versions apis).status =
        RunStatus.success) := by
  refine ⟨fun st => rfl, fun f st h => runLoop_no_ready gen nodes edges versions apis st h f, ?_⟩
  intro startInputs hok
  rcases engine_statusInv gen nodes edges startInputs versions apis with h | h
  · exact h.1
  · obtain ⟨_, pre, last, hsteps, hlast, _⟩ := h
    have : last.status = RunStatus.success := hok last (by rw [hsteps]; simp)
    rw [hlast] at this
    exact absurd this (by simp)

/-- Claim C6 (confirmed): the embedded engine is a pure function of the
graph, the edges, the initial inputs and the generation stub, so two runs
with pointwise-equal deterministic stubs produce identical step lists
(same `nodeId`s, names, statuses and outputs, in the same order). -/
theorem run_deterministic_steps (gen1 gen2 : GenStub) (nodes : List WorkflowNode)
    (edges : List WorkflowEdge) (startInputs : VarMap) (versions : List PromptVersion)
    (apis : List LLMConfig)
    (h : ∀ c p si, gen1 c p si = gen2 c p si) :
    (executeWorkflowEngine gen1 nodes edges startInputs versions apis).steps =
      (executeWorkflowEngine gen2 nodes edges startInputs versions apis).steps := by
  have : gen1 = gen2 := funext fun c => funext fun p => funext fun si => h c p si
  rw [this]

/-- Claim C8 (confirmed): when no available model configuration matches
the version's declared model id, the engine's model resolution (line 144,
used by `execLlm` for the generation call) falls back to the first
available configuration — `availableAPIs[0]`, i.e. `apis.head?` — instead
of failing the node. -/
theorem model_config_soft_fallback (apis : List LLMConfig) (model : Str)
    (h : ∀ a ∈ apis, ¬ a.id = model) :
    resolveModelConfig apis model = apis.head? := by
  unfold resolveModelConfig
  have hf : apis.find? (fun a => a.id == model) = none := by
    rw [List.find?_eq_none]
    intro a ha
    simp [h a ha]
  rw [hf]

/-- Claim C2 (amended): assuming the graph invariant of §3 — at most one
edge binds any `(target, targetHandle)` pair — a pending node is ready if
and only if every variable name the Variable Resolver returns for it is
present in the Execution Context or is the target-handle of some edge
into the node whose source is processed (without that invariant the code
consults only the *first* matching edge, see the counterexample); and a
Generate node with a required variable that is not an initial input, not
any node's declared output variable, not a raw-output key, and whose
matching edges' sources never execute, never appears as a step in the run
log. -/
theorem scheduler_readiness_first_edge (gen : GenStub) (nodes : List WorkflowNode)
    (edges : List WorkflowEdge) (startInputs : VarMap) (versions : List PromptVersion)
    (apis : List LLMConfig)
    (huniqE : ∀ e1 ∈ edges, ∀ e2 ∈ edges, e1.target = e2.target →
      e1.targetHandle = e2.targetHandle → e1 = e2) :
    (∀ (ctx : VarMap) (processed : List Str) (node : WorkflowNode),
      isReady versions edges ctx processed node = true ↔
        readySpec versions edges ctx processed node) ∧
    (∀ (n : WorkflowNode) (v : Str),
      n.type = NodeType.llm → v ∈ requiredVarsOf versions n →
      objGet startInputs v = none →
      (∀ m ∈ nodes, ¬ truthyOpt m.data.outputVariableName = some v) →
      (∀ m ∈ nodes, ¬ rawKey m.id = v) →
      (∀ m ∈ nodes, m.id = n.id → m = n) →
      (∀ e ∈ edges, e.target = n.id → e.targetHandle = v →
        ∀ s ∈ (executeWorkflowEngine gen nodes edges startInputs versions apis).steps,
          ¬ s.nodeId = e.source) →
      ∀ s ∈ (executeWorkflowEngine gen nodes edges startInputs versions apis).steps,
        ¬ s.nodeId = n.id) := by
  constructor
  · intro ctx processed node
    constructor
    · intro hready
      intro w hw
      have hall := List.all_eq_true.mp (by simpa [isReady] using hready) w hw
      simp only at hall
      cases hget : objGet ctx w with
      | some val => exact Or.inl rfl
      | none =>
        rw [hget] at hall
        cases hfe : edges.find? (fun e => e.target == node.id && e.targetHandle == w) with
        | none => rw [hfe] at hall; exact absurd hall (by simp)
        | some e =>
          rw [hfe] at hall
          have hpred := List.find?_some hfe
          simp only [Bool.and_eq_true, beq_iff_eq] at hpred
          exact Or.inr ⟨e, List.mem_of_find?_eq_some hfe, hpred.1, hpred.2,
            by simpa using hall⟩
    · intro hspec
      simp only [isReady]
      apply List.all_eq_true.mpr
      intro w hw
      rcases hspec w hw with h1 | h1
      · obtain ⟨val, hval⟩ := Option.isSome_iff_exists.mp h1
        rw [hval]
      · obtain ⟨e, he, ht, hh, hsrc⟩ := h1
        cases hget : objGet ctx w with
        | some val => rfl
        | none =>
          cases hfe : edges.find? (fun x => x.target == node.id && x.targetHandle == w) with
          | none =>
            rw [List.find?_eq_none] at hfe
            exact absurd (by simp [ht, hh] :
              ((fun x => x.target == node.id && x.targetHandle == w) e) = true) (hfe e he)
          | some e2 =>
            have hpred := List.find?_some hfe
            simp only [Bool.and_eq_true, beq_iff_eq] at hpred
            have he2 : e2 ∈ edges := List.mem_of_find?_eq_some hfe
            have heq : e2 = e := huniqE e2 he2 e he (by rw [hpred.1, ht]) (by rw [hpred.2, hh])
            rw [heq]
            simpa using hsrc
  · intro n v hty hvreq hvin hvout hvraw huniq hedge s hs hsid
    have hcons := engine_inv2 gen nodes edges startInputs versions apis n v
      hty hvreq hvin hvout hvraw huniq ⟨s, hs, hsid⟩
    obtain ⟨e, he, ht, hh, s2, hs2, hss2⟩ := hcons
    exact hedge e he ht hh s2 hs2 hss2

/-- Claim C2 counterexample (the claim as frozen, with "some edge"): with
two edges binding the same `(target, targetHandle)` pair — the first from
an unprocessed source, the second from a processed one — the spec-side
existential readiness predicate holds while the code, which consults only
the first matching edge, judges the node not ready. -/
theorem scheduler_readiness_exists_edge_counterexample :
    isReady
        [⟨("V".data), ("sys".data), ("c".data), none, ("m".data)⟩]
        [⟨("d1".data), ("s1".data), ("out".data), ("n".data), ("v".data)⟩,
         ⟨("d2".data), ("st".data), ("out".data), ("n".data), ("v".data)⟩]
        [] [("st".data)]
        ⟨("n".data), NodeType.llm, ("N".data),
         ⟨some ("V".data), none, some ('{' :: '{' :: 'v' :: '}' :: '}' :: []), none, none⟩⟩ =
      false ∧
    readySpec
        [⟨("V".data), ("sys".data), ("c".data), none, ("m".data)⟩]
        [⟨("d1".data), ("s1".data), ("out".data), ("n".data), ("v".data)⟩,
         ⟨("d2".data), ("st".data), ("out".data), ("n".data), ("v".data)⟩]
        [] [("st".data)]
        ⟨("n".data), NodeType.llm, ("N".data),
         ⟨some ("V".data), none, some ('{' :: '{' :: 'v' :: '}' :: '}' :: []), none, none⟩⟩ := by
  constructor
  · decide
  · intro w hw
    have : w = ("v".data) := by
      have hvars : requiredVarsOf
          [⟨("V".data), ("sys".data), ("c".data), none, ("m".data)⟩]
          ⟨("n".data), NodeType.llm, ("N".data),
           ⟨some ("V".data), none, some ('{' :: '{' :: 'v' :: '}' :: '}' :: []), none, none⟩⟩ =
          [("v".data)] := by decide
      rw [hvars] at hw
      simpa using hw
    subst this
    refine Or.inr ⟨⟨("d2".data), ("st".data), ("out".data), ("n".data), ("v".data)⟩,
      by simp, by decide, by decide, by decide⟩

theorem count_filter_le (p q : WorkflowNode → Bool) (l : List WorkflowNode) :
    (l.filter q).countP p ≤ l.countP p :=
  (List.filter_sublist l).countP_le p

theorem count_start_aux (id : Str) (s : WorkflowNode) (hst : s.type = NodeType.start) :
    ∀ l : List WorkflowNode, s ∈ l →
      ((if (s.id == id) = true then 1 else 0) +
        (l.filter (fun n => !(n.type == NodeType.start))).countP (fun m => m.id == id)) ≤
      l.countP (fun m => m.id == id) := by
  intro l
  induction l with
  | nil => intro h; simp at h
  | cons a l ih =>
    intro h
    have hle := count_filter_le (fun m => m.id == id) (fun n => !(n.type == NodeType.start)) l
    rcases List.mem_cons.mp h with h | h
    · subst h
      have hfil : (s :: l).filter (fun n => !(n.type == NodeType.start)) =
          l.filter (fun n => !(n.type == NodeType.start)) := by
        rw [List.filter_cons]
        rw [if_neg (by simp [hst])]
      rw [hfil]
      simp only [List.countP_cons]
      by_cases hid : (s.id == id) = true
      · rw [if_pos hid]
        omega
      · rw [if_neg hid]
        omega
    · have hrec := ih h
      rw [List.filter_cons]
      by_cases hA : (!(a.type == NodeType.start)) = true
      · rw [if_pos hA]
        simp only [List.countP_cons]
        by_cases hid2 : (a.id == id) = true
        · rw [if_pos hid2]
          omega
        · rw [if_neg hid2]
          omega
      · rw [if_neg hA]
        simp only [List.countP_cons]
        by_cases hid2 : (a.id == id) = true
        · rw [if_pos hid2]
          omega
        · rw [if_neg hid2]
          omega

theorem init_count_le (nodes : List WorkflowNode) (startInputs : VarMap) (id : Str) :
    ((match nodes.find? (fun n => n.type == NodeType.start) with
      | some s => [successStep s (jsonStringify startInputs)]
      | none => []) : List RunStep).countP (fun s => s.nodeId == id) +
      (nodes.filter (fun n => !(n.type == NodeType.start))).countP (fun m => m.id == id) ≤
    nodes.countP (fun m => m.id == id) := by
  cases hf : nodes.find? (fun n => n.type == NodeType.start) with
  | none =>
    simp only [List.countP_nil, Nat.zero_add]
    exact count_filter_le _ _ _
  | some s =>
    have hmem : s ∈ nodes := List.mem_of_find?_eq_some hf
    have hst : s.type = NodeType.start := by simpa using List.find?_some hf
    have h1 : ([successStep s (jsonStringify startInputs)]).countP (fun x => x.nodeId == id) =
        if (s.id == id) = true then 1 else 0 := by
      simp [List.countP_cons, successStep]
    rw [h1]
    exact count_start_aux id s hst nodes hmem

/-- Claim C4 (amended): no node is ever re-executed — for every id, the
number of logged steps carrying that id never exceeds the number of node
elements with that id, so each node element contributes at most one step
and in particular each raw-output key `_raw_output_<id>` of a
uniquely-identified node is written by at most one execution.  The
unqualified "once written, never overwritten" of the claim is false: a
declared output variable shared by two Generate nodes is overwritten by
the later one (see the counterexample). -/
theorem node_executed_at_most_once (gen : GenStub) (nodes : List WorkflowNode)
    (edges : List WorkflowEdge) (startInputs : VarMap) (versions : List PromptVersion)
    (apis : List LLMConfig) (id : Str) :
    (executeWorkflowEngine gen nodes edges startInputs versions apis).steps.countP
        (fun s => s.nodeId == id) ≤
      nodes.countP (fun m => m.id == id) := by
  unfold executeWorkflowEngine
  dsimp only
  refine le_trans (le_trans (Nat.le_add_right _ _)
    (runLoop_count gen nodes edges versions apis 100
      { remaining := nodes.filter (fun n => !(n.type == NodeType.start)),
        ctx := startInputs,
        processed :=
          match nodes.find? (fun n => n.type == NodeType.start) with
          | some s => [s.id]
          | none => [],
        steps :=
          match nodes.find? (fun n => n.type == NodeType.start) with
          | some s => [successStep s (jsonStringify startInputs)]
          | none => [],
        status := RunStatus.success,
        outputs := [] } id)) ?_
  simpa using init_count_le nodes startInputs id

/-- Claim C4 counterexample (the claim as frozen): two Generate nodes both
declaring the output variable `x`, with distinct prompts and the
generation stubbed to echo its prompt.  After the first loop iteration the
Execution Context maps `x` to `p1`; after the second iteration of the same
run it maps `x` to `p2` — the key's value was overwritten within a single
run.  (`runLoop … 1 st₀` and `runLoop … 2 st₀` are exactly the successive
intermediate states of the run `runLoop … 100 st₀` performed by
`executeWorkflowEngine` on this graph, whose initial state is `st₀`.) -/
theorem output_variable_overwrite_counterexample :
    objGet (runLoop (fun _ p _ => Except.ok p)
        [⟨("n1".data), NodeType.llm, ("N1".data),
          ⟨some ("V".data), none, some ("p1".data), some ("x".data), none⟩⟩,
         ⟨("n2".data), NodeType.llm, ("N2".data),
          ⟨some ("V".data), none, some ("p2".data), some ("x".data), none⟩⟩]
        [] [⟨("V".data), ("sys".data), ("c".data), none, ("m".data)⟩] [] 1
        ⟨[⟨("n1".data), NodeType.llm, ("N1".data),
           ⟨some ("V".data), none, some ("p1".data), some ("x".data), none⟩⟩,
          ⟨("n2".data), NodeType.llm, ("N2".data),
           ⟨some ("V".data), none, some ("p2".data), some ("x".data), none⟩⟩],
         [], [], [], RunStatus.success, []⟩).ctx ("x".data) = some ("p1".data) ∧
    objGet (runLoop (fun _ p _ => Except.ok p)
        [⟨("n1".data), NodeType.llm, ("N1".data),
          ⟨some ("V".data), none, some ("p1".data), some ("x".data), none⟩⟩,
         ⟨("n2".data), NodeType.llm, ("N2".data),
          ⟨some ("V".data), none, some ("p2".data), some ("x".data), none⟩⟩]
        [] [⟨("V".data), ("sys".data), ("c".data), none, ("m".data)⟩] [] 2
        ⟨[⟨("n1".data), NodeType.llm, ("N1".data),
           ⟨some ("V".data), none, some ("p1".data), some ("x".data), none⟩⟩,
          ⟨("n2".data), NodeType.llm, ("N2".data),
           ⟨some ("V".data), none, some ("p2".data), some ("x".data), none⟩⟩],
         [], [], [], RunStatus.success, []⟩).ctx ("x".data) = some ("p2".data) := by
  constructor
  · decide
  · decide

/-- A complete characterization of the run for a graph of one Entry node
and one Exit node: when the Exit node is ready against the initial inputs
it executes and renders its template, otherwise the run stops after the
Entry step with no `final` output. -/
theorem engine_two_node (gen : GenStub) (versions : List PromptVersion)
    (apis : List LLMConfig) (sid sname eid ename tmpl : Str) (inputs : VarMap)
    (edges : List WorkflowEdge) :
    (isReady versions edges inputs [sid]
        ⟨eid, NodeType.endNode, ename, ⟨none, none, none, none, some tmpl⟩⟩ = true →
      executeWorkflowEngine gen
          [⟨sid, NodeType.start, sname, ⟨none, none, none, none, none⟩⟩,
           ⟨eid, NodeType.endNode, ename, ⟨none, none, none, none, some tmpl⟩⟩]
          edges inputs versions apis =
        { status := RunStatus.success,
          inputs := inputs,
          outputs := objSet [] finalKey (execEnd
            [⟨sid, NodeType.start, sname, ⟨none, none, none, none, none⟩⟩,
             ⟨eid, NodeType.endNode, ename, ⟨none, none, none, none, some tmpl⟩⟩]
            edges inputs ⟨eid, NodeType.endNode, ename, ⟨none, none, none, none, some tmpl⟩⟩),
          steps := [successStep ⟨sid, NodeType.start, sname, ⟨none, none, none, none, none⟩⟩
              (jsonStringify inputs),
            successStep ⟨eid, NodeType.endNode, ename, ⟨none, none, none, none, some tmpl⟩⟩
              (execEnd
                [⟨sid, NodeType.start, sname, ⟨none, none, none, none, none⟩⟩,
                 ⟨eid, NodeType.endNode, ename, ⟨none, none, none, none, some tmpl⟩⟩]
                edges inputs
                ⟨eid, NodeType.endNode, ename, ⟨none, none, none, none, some tmpl⟩⟩)] }) ∧
    (isReady versions edges inputs [sid]
        ⟨eid, NodeType.endNode, ename, ⟨none, none, none, none, some tmpl⟩⟩ = false →
      executeWorkflowEngine gen
          [⟨sid, NodeType.start, sname, ⟨none, none, none, none, none⟩⟩,
           ⟨eid, NodeType.endNode, ename, ⟨none, none, none, none, some tmpl⟩⟩]
          edges inputs versions apis =
        { status := RunStatus.success,
          inputs := inputs,
          outputs := [],
          steps := [successStep ⟨sid, NodeType.start, sname, ⟨none, none, none, none, none⟩⟩
            (jsonStringify inputs)] }) := by
  have hE : executeWorkflowEngine gen
      [⟨sid, NodeType.start, sname, ⟨none, none, none, none, none⟩⟩,
       ⟨eid, NodeType.endNode, ename, ⟨none, none, none, none, some tmpl⟩⟩]
      edges inputs versions apis =
      { status := (runLoop gen
          [⟨sid, NodeType.start, sname, ⟨none, none, none, none, none⟩⟩,
           ⟨eid, NodeType.endNode, ename, ⟨none, none, none, none, some tmpl⟩⟩]
          edges versions apis 100
          ⟨[⟨eid, NodeType.endNode, ename, ⟨none, none, none, none, some tmpl⟩⟩],
           inputs, [sid],
           [successStep ⟨sid, NodeType.start, sname, ⟨none, none, none, none, none⟩⟩
             (jsonStringify inputs)],
           RunStatus.success, []⟩).status,
        inputs := inputs,
        outputs := (runLoop gen
          [⟨sid, NodeType.start, sname, ⟨none, none, none, none, none⟩⟩,
           ⟨eid, NodeType.endNode, ename, ⟨none, none, none, none, some tmpl⟩⟩]
          edges versions apis 100
          ⟨[⟨eid, NodeType.endNode, ename, ⟨none, none, none, none, some tmpl⟩⟩],
           inputs, [sid],
           [successStep ⟨sid, NodeType.start, sname, ⟨none, none, none, none, none⟩⟩
             (jsonStringify inputs)],
           RunStatus.success, []⟩).outputs,
        steps := (runLoop gen
          [⟨sid, NodeType.start, sname, ⟨none, none, none, none, none⟩⟩,
           ⟨eid, NodeType.endNode, ename, ⟨none, none, none, none, some tmpl⟩⟩]
          edges versions apis 100
          ⟨[⟨eid, NodeType.endNode, ename, ⟨none, none, none, none, some tmpl⟩⟩],
           inputs, [sid],
           [successStep ⟨sid, NodeType.start, sname, ⟨none, none, none, none, none⟩⟩
             (jsonStringify inputs)],
           RunStatus.success, []⟩).steps } := rfl
  constructor
  · intro hr
    have hfr : findReady versions edges inputs [sid]
        [⟨eid, NodeType.endNode, ename, ⟨none, none, none, none, some tmpl⟩⟩] =
        some (⟨eid, NodeType.endNode, ename, ⟨none, none, none, none, some tmpl⟩⟩, []) := by
      simp [findReady, hr]
    have hli : loopIter gen
        [⟨sid, NodeType.start, sname, ⟨none, none, none, none, none⟩⟩,
         ⟨eid, NodeType.endNode, ename, ⟨none, none, none, none, some tmpl⟩⟩]
        edges versions apis
        ⟨[⟨eid, NodeType.endNode, ename, ⟨none, none, none, none, some tmpl⟩⟩],
         inputs, [sid],
         [successStep ⟨sid, NodeType.start, sname, ⟨none, none, none, none, none⟩⟩
           (jsonStringify inputs)],
         RunStatus.success, []⟩ =
        StepOut.next
          ⟨[], inputs, eid :: [sid],
           [successStep ⟨sid, NodeType.start, sname, ⟨none, none, none, none, none⟩⟩
              (jsonStringify inputs),
            successStep ⟨eid, NodeType.endNode, ename, ⟨none, none, none, none, some tmpl⟩⟩
              (execEnd
                [⟨sid, NodeType.start, sname, ⟨none, none, none, none, none⟩⟩,
                 ⟨eid, NodeType.endNode, ename, ⟨none, none, none, none, some tmpl⟩⟩]
                edges inputs
                ⟨eid, NodeType.endNode, ename, ⟨none, none, none, none, some tmpl⟩⟩)],
           RunStatus.success,
           objSet [] finalKey (execEnd
             [⟨sid, NodeType.start, sname, ⟨none, none, none, none, none⟩⟩,
              ⟨eid, NodeType.endNode, ename, ⟨none, none, none, none, some tmpl⟩⟩]
             edges inputs
             ⟨eid, NodeType.endNode, ename, ⟨none, none, none, none, some tmpl⟩⟩)⟩ := by
      unfold loopIter
      rw [if_neg (by simp)]
      rw [hfr]
      rfl
    rw [hE]
    have h100 : (100 : Nat) = 99 + 1 := rfl
    rw [h100, runLoop_succ, hli]
    dsimp only
    rw [runLoop_empty gen
      [⟨sid, NodeType.start, sname, ⟨none, none, none, none, none⟩⟩,
       ⟨eid, NodeType.endNode, ename, ⟨none, none, none, none, some tmpl⟩⟩]
      edges versions apis
      ⟨[], inputs, eid :: [sid],
       [successStep ⟨sid, NodeType.start, sname, ⟨none, none, none, none, none⟩⟩
          (jsonStringify inputs),
        successStep ⟨eid, NodeType.endNode, ename, ⟨none, none, none, none, some tmpl⟩⟩
          (execEnd
            [⟨sid, NodeType.start, sname, ⟨none, none, none, none, none⟩⟩,
             ⟨eid, NodeType.endNode, ename, ⟨none, none, none, none, some tmpl⟩⟩]
            edges inputs
            ⟨eid, NodeType.endNode, ename, ⟨none, none, none, none, some tmpl⟩⟩)],
       RunStatus.success,
       objSet [] finalKey (execEnd
         [⟨sid, NodeType.start, sname, ⟨none, none, none, none, none⟩⟩,
          ⟨eid, NodeType.endNode, ename, ⟨none, none, none, none, some tmpl⟩⟩]
         edges inputs
         ⟨eid, NodeType.endNode, ename, ⟨none, none, none, none, some tmpl⟩⟩)⟩
      rfl 99]
  · intro hr
    rw [hE]
    have hfr : findReady versions edges inputs [sid]
        [⟨eid, NodeType.endNode, ename, ⟨none, none, none, none, some tmpl⟩⟩] = none := by
      simp [findReady, hr]
    rw [runLoop_no_ready gen
      [⟨sid, NodeType.start, sname, ⟨none, none, none, none, none⟩⟩,
       ⟨eid, NodeType.endNode, ename, ⟨none, none, none, none, some tmpl⟩⟩]
      edges versions apis
      ⟨[⟨eid, NodeType.endNode, ename, ⟨none, none, none, none, some tmpl⟩⟩],
       inputs, [sid],
       [successStep ⟨sid, NodeType.start, sname, ⟨none, none, none, none, none⟩⟩
         (jsonStringify inputs)],
       RunStatus.success, []⟩
      hfr 100]

/-- Claim C3 (amended): for a graph of exactly an Entry node and an Exit
node with no edges — when *every* placeholder name of the Exit template is
present in the initial inputs, `outputs.final` is the template with the
placeholders substituted sequentially by global replacement (values
containing placeholder syntax can themselves be substituted by a later
pass, as `substituteAll` records); when *some* placeholder name is absent,
the Exit node never becomes ready, never executes, and `outputs.final` is
absent — it is not produced with the unresolved placeholder left verbatim
as the claim states (see the counterexample). -/
theorem entry_exit_final_output (gen : GenStub) (versions : List PromptVersion)
    (apis : List LLMConfig) (sid sname eid ename tmpl : Str) (inputs : VarMap) :
    ((∀ w ∈ getVariables tmpl, (objGet inputs w).isSome) →
      objGet (executeWorkflowEngine gen
          [⟨sid, NodeType.start, sname, ⟨none, none, none, none, none⟩⟩,
           ⟨eid, NodeType.endNode, ename, ⟨none, none, none, none, some tmpl⟩⟩]
          [] inputs versions apis).outputs finalKey =
        some (substituteAll inputs tmpl)) ∧
    ((∃ w ∈ getVariables tmpl, objGet inputs w = none) →
      objGet (executeWorkflowEngine gen
          [⟨sid, NodeType.start, sname, ⟨none, none, none, none, none⟩⟩,
           ⟨eid, NodeType.endNode, ename, ⟨none, none, none, none, some tmpl⟩⟩]
          [] inputs versions apis).outputs finalKey = none) := by
  constructor
  · intro hall
    have hr : isReady versions [] inputs [sid]
        ⟨eid, NodeType.endNode, ename, ⟨none, none, none, none, some tmpl⟩⟩ = true := by
      simp only [isReady]
      apply List.all_eq_true.mpr
      intro w hw
      obtain ⟨val, hval⟩ := Option.isSome_iff_exists.mp (hall w hw)
      rw [hval]
    obtain ⟨hA, _⟩ := engine_two_node gen versions apis sid sname eid ename tmpl inputs []
    rw [hA hr]
    have hout : execEnd
        [⟨sid, NodeType.start, sname, ⟨none, none, none, none, none⟩⟩,
         ⟨eid, NodeType.endNode, ename, ⟨none, none, none, none, some tmpl⟩⟩]
        [] inputs ⟨eid, NodeType.endNode, ename, ⟨none, none, none, none, some tmpl⟩⟩ =
        substituteAll inputs tmpl := rfl
    rw [hout]
    exact objGet_objSet_self [] finalKey (substituteAll inputs tmpl)
  · intro hmiss
    have hr : isReady versions [] inputs [sid]
        ⟨eid, NodeType.endNode, ename, ⟨none, none, none, none, some tmpl⟩⟩ = false := by
      obtain ⟨w, hw, hnone⟩ := hmiss
      cases hb : isReady versions [] inputs [sid]
          ⟨eid, NodeType.endNode, ename, ⟨none, none, none, none, some tmpl⟩⟩ with
      | false => rfl
      | true =>
        exfalso
        have hall := List.all_eq_true.mp (by simpa [isReady] using hb) w hw
        rw [hnone] at hall
        simp at hall
    obtain ⟨_, hB⟩ := engine_two_node gen versions apis sid sname eid ename tmpl inputs []
    rw [hB hr]
    rfl

/-- Claim C3 counterexample (the claim as frozen): Entry and Exit with no
edges, Exit template `{{b}}`, empty initial inputs.  The claim predicts
`outputs.final` equal to the template itself, placeholder left verbatim; the code never
selects the Exit node as ready, so the run has a single (Entry) step and
no `final` output at all. -/
theorem entry_exit_unresolved_counterexample :
    objGet (executeWorkflowEngine (fun _ _ _ => Except.ok [])
        [⟨("s".data), NodeType.start, ("Entry".data), ⟨none, none, none, none, none⟩⟩,
         ⟨("e".data), NodeType.endNode, ("Exit".data),
          ⟨none, none, none, none, some ('{' :: '{' :: 'b' :: '}' :: '}' :: [])⟩⟩]
        [] [] [] []).outputs finalKey = none ∧
    (executeWorkflowEngine (fun _ _ _ => Except.ok [])
        [⟨("s".data), NodeType.start, ("Entry".data), ⟨none, none, none, none, none⟩⟩,
         ⟨("e".data), NodeType.endNode, ("Exit".data),
          ⟨none, none, none, none, some ('{' :: '{' :: 'b' :: '}' :: '}' :: [])⟩⟩]
        [] [] [] []).steps.length = 1 := by
  constructor
  · decide
  · decide

/-- Claim C10 (confirmed): an Exit-template placeholder absent from the
Execution Context but bound by an edge from the Entry node — a source that
produced no raw output, since `_raw_output_<entry id>` is never written —
is substituted by the empty string in `outputs.final`, not left verbatim. -/
theorem edge_bound_missing_raw_output_empty (gen : GenStub)
    (versions : List PromptVersion) (apis : List LLMConfig)
    (sid sname eid ename egid ehandle v tmpl : Str) (inputs : VarMap)
    (hvars : getVariables tmpl = [v])
    (hvin : objGet inputs v = none)
    (hraw : objGet inputs (rawKey sid) = none) :
    objGet (executeWorkflowEngine gen
        [⟨sid, NodeType.start, sname, ⟨none, none, none, none, none⟩⟩,
         ⟨eid, NodeType.endNode, ename, ⟨none, none, none, none, some tmpl⟩⟩]
        [⟨egid, sid, ehandle, eid, v⟩] inputs versions apis).outputs finalKey =
      some (replaceVar tmpl v []) := by
  have hvars' : requiredVarsOf versions
      ⟨eid, NodeType.endNode, ename, ⟨none, none, none, none, some tmpl⟩⟩ = [v] := by
    simp only [requiredVarsOf]
    exact hvars
  have hr : isReady versions [⟨egid, sid, ehandle, eid, v⟩] inputs [sid]
      ⟨eid, NodeType.endNode, ename, ⟨none, none, none, none, some tmpl⟩⟩ = true := by
    simp only [isReady]
    apply List.all_eq_true.mpr
    intro w hw
    rw [hvars'] at hw
    have hw' : w = v := by simpa using hw
    subst hw'
    rw [hvin]
    simp [List.find?]
  obtain ⟨hA, _⟩ := engine_two_node gen versions apis sid sname eid ename tmpl inputs
    [⟨egid, sid, ehandle, eid, v⟩]
  rw [hA hr]
  have hout : execEnd
      [⟨sid, NodeType.start, sname, ⟨none, none, none, none, none⟩⟩,
       ⟨eid, NodeType.endNode, ename, ⟨none, none, none, none, some tmpl⟩⟩]
      [⟨egid, sid, ehandle, eid, v⟩] inputs
      ⟨eid, NodeType.endNode, ename, ⟨none, none, none, none, some tmpl⟩⟩ =
      replaceVar tmpl v [] := by
    show (getVariables tmpl).foldl _ tmpl = replaceVar tmpl v []
    rw [hvars]
    simp only [List.foldl]
    simp [hvin, hraw, List.find?]
  rw [hout]
  exact objGet_objSet_self [] finalKey (replaceVar tmpl v [])

/-- Claim C7 counterexample (the claim as frozen): on the template
`{{a}}{{a}}` the Variable Resolver returns `["a", "a"]` — the name `a`
appears twice, so the result is not a duplicate-free set. -/
theorem variable_resolver_duplicates_counterexample :
    getVariables ('{' :: '{' :: 'a' :: '}' :: '}' :: '{' :: '{' :: 'a' :: '}' :: '}' :: []) =
      [('a' :: []), ('a' :: [])] ∧
    ¬ List.Nodup
      (getVariables ('{' :: '{' :: 'a' :: '}' :: '}' :: '{' :: '{' :: 'a' :: '}' :: '}' :: [])) := by
  constructor
  · decide
  · decide

/-! ## Witnesses -/

theorem error_step_is_terminal_witness :
    (errorStep ⟨("g".data), NodeType.llm, ("G".data),
        ⟨some ("V".data), none, none, none, none⟩⟩ refVersionNotFoundMsg) ∈
      (executeWorkflowEngine (fun _ _ _ => Except.ok [])
        [⟨("g".data), NodeType.llm, ("G".data), ⟨some ("V".data), none, none, none, none⟩⟩]
        [] [] [] []).steps ∧
    (errorStep ⟨("g".data), NodeType.llm, ("G".data),
        ⟨some ("V".data), none, none, none, none⟩⟩ refVersionNotFoundMsg).status =
      RunStatus.error ∧
    ((executeWorkflowEngine (fun _ _ _ => Except.ok [])
        [⟨("g".data), NodeType.llm, ("G".data), ⟨some ("V".data), none, none, none, none⟩⟩]
        [] [] [] []).status = RunStatus.error ∧
      (executeWorkflowEngine (fun _ _ _ => Except.ok [])
          [⟨("g".data), NodeType.llm, ("G".data), ⟨some ("V".data), none, none, none, none⟩⟩]
          [] [] [] []).steps.getLast? =
        some (errorStep ⟨("g".data), NodeType.llm, ("G".data),
          ⟨some ("V".data), none, none, none, none⟩⟩ refVersionNotFoundMsg) ∧
      ∀ s' ∈ (executeWorkflowEngine (fun _ _ _ => Except.ok [])
          [⟨("g".data), NodeType.llm, ("G".data), ⟨some ("V".data), none, none, none, none⟩⟩]
          [] [] [] []).steps,
        s' ≠ errorStep ⟨("g".data), NodeType.llm, ("G".data),
            ⟨some ("V".data), none, none, none, none⟩⟩ refVersionNotFoundMsg →
          s'.status = RunStatus.success) :=
  ⟨by decide, by decide,
    error_step_is_terminal (fun _ _ _ => Except.ok [])
      [⟨("g".data), NodeType.llm, ("G".data), ⟨some ("V".data), none, none, none, none⟩⟩]
      [] [] [] []
      (errorStep ⟨("g".data), NodeType.llm, ("G".data),
        ⟨some ("V".data), none, none, none, none⟩⟩ refVersionNotFoundMsg)
      (by decide) (by decide)⟩

theorem scheduler_readiness_first_edge_witness :
    (isReady [] [] [] []
        ⟨("n".data), NodeType.llm, ("N".data),
         ⟨none, none, some ('{' :: '{' :: 'v' :: '}' :: '}' :: []), none, none⟩⟩ = true ↔
      readySpec [] [] [] []
        ⟨("n".data), NodeType.llm, ("N".data),
         ⟨none, none, some ('{' :: '{' :: 'v' :: '}' :: '}' :: []), none, none⟩⟩) ∧
    (∀ s ∈ (executeWorkflowEngine (fun _ _ _ => Except.ok [])
        [⟨("n".data), NodeType.llm, ("N".data),
          ⟨none, none, some ('{' :: '{' :: 'v' :: '}' :: '}' :: []), none, none⟩⟩]
        [] [] [] []).steps,
      ¬ s.nodeId = (⟨("n".data), NodeType.llm, ("N".data),
        ⟨none, none, some ('{' :: '{' :: 'v' :: '}' :: '}' :: []), none, none⟩⟩ :
          WorkflowNode).id) :=
  ⟨(scheduler_readiness_first_edge (fun _ _ _ => Except.ok [])
      [⟨("n".data), NodeType.llm, ("N".data),
        ⟨none, none, some ('{' :: '{' :: 'v' :: '}' :: '}' :: []), none, none⟩⟩]
      [] [] [] [] (by decide)).1 [] []
      ⟨("n".data), NodeType.llm, ("N".data),
       ⟨none, none, some ('{' :: '{' :: 'v' :: '}' :: '}' :: []), none, none⟩⟩,
   (scheduler_readiness_first_edge (fun _ _ _ => Except.ok [])
      [⟨("n".data), NodeType.llm, ("N".data),
        ⟨none, none, some ('{' :: '{' :: 'v' :: '}' :: '}' :: []), none, none⟩⟩]
      [] [] [] [] (by decide)).2
      ⟨("n".data), NodeType.llm, ("N".data),
       ⟨none, none, some ('{' :: '{' :: 'v' :: '}' :: '}' :: []), none, none⟩⟩
      ("v".data) (by decide) (by decide) (by decide) (by decide) (by decide) (by decide)
      (by decide)⟩

theorem entry_exit_final_output_witness :
    (∀ w ∈ getVariables ('H' :: 'i' :: ' ' :: '{' :: '{' :: 'a' :: '}' :: '}' :: []),
      (objGet [(("a".data), ("X".data))] w).isSome) ∧
    objGet (executeWorkflowEngine (fun _ _ _ => Except.ok [])
        [⟨("s".data), NodeType.start, ("Entry".data), ⟨none, none, none, none, none⟩⟩,
         ⟨("e".data), NodeType.endNode, ("Exit".data),
          ⟨none, none, none, none,
           some ('H' :: 'i' :: ' ' :: '{' :: '{' :: 'a' :: '}' :: '}' :: [])⟩⟩]
        [] [(("a".data), ("X".data))] [] []).outputs finalKey =
      some (substituteAll [(("a".data), ("X".data))]
        ('H' :: 'i' :: ' ' :: '{' :: '{' :: 'a' :: '}' :: '}' :: [])) :=
  ⟨by decide,
    (entry_exit_final_output (fun _ _ _ => Except.ok []) [] [] ("s".data) ("Entry".data)
      ("e".data) ("Exit".data) ('H' :: 'i' :: ' ' :: '{' :: '{' :: 'a' :: '}' :: '}' :: [])
      [(("a".data), ("X".data))]).1 (by decide)⟩

theorem node_executed_at_most_once_witness :
    (executeWorkflowEngine (fun _ _ _ => Except.ok [])
        [⟨("n1".data), NodeType.llm, ("N1".data),
          ⟨some ("V".data), none, some ("p1".data), some ("x".data), none⟩⟩]
        [] [] [⟨("V".data), ("sys".data), ("c".data), none, ("m".data)⟩] []).steps.countP
        (fun s => s.nodeId == ("n1".data)) ≤
      ([⟨("n1".data), NodeType.llm, ("N1".data),
        ⟨some ("V".data), none, some ("p1".data), some ("x".data), none⟩⟩] :
          List WorkflowNode).countP (fun m => m.id == ("n1".data)) :=
  node_executed_at_most_once (fun _ _ _ => Except.ok [])
    [⟨("n1".data), NodeType.llm, ("N1".data),
      ⟨some ("V".data), none, some ("p1".data), some ("x".data), none⟩⟩]
    [] [] [⟨("V".data), ("sys".data), ("c".data), none, ("m".data)⟩] [] ("n1".data)

theorem scheduler_stop_not_error_witness :
    runLoop (fun _ _ _ => Except.ok []) [] [] [] [] 0
        ⟨[], [], [], [], RunStatus.success, []⟩ =
      ⟨[], [], [], [], RunStatus.success, []⟩ ∧
    (findReady [] [] [] [] [] = none ∧
      runLoop (fun _ _ _ => Except.ok []) [] [] [] [] 5
          ⟨[], [], [], [], RunStatus.success, []⟩ =
        ⟨[], [], [], [], RunStatus.success, []⟩) ∧
    ((∀ s ∈ (executeWorkflowEngine (fun _ _ _ => Except.ok []) [] [] [] [] []).steps,
        s.status = RunStatus.success) ∧
      (executeWorkflowEngine (fun _ _ _ => Except.ok []) [] [] [] [] []).status =
        RunStatus.success) :=
  ⟨(scheduler_stop_not_error (fun _ _ _ => Except.ok []) [] [] [] []).1
      ⟨[], [], [], [], RunStatus.success, []⟩,
   ⟨by decide,
    (scheduler_stop_not_error (fun _ _ _ => Except.ok []) [] [] [] []).2.1 5
      ⟨[], [], [], [], RunStatus.success, []⟩ (by decide)⟩,
   ⟨by decide,
    (scheduler_stop_not_error (fun _ _ _ => Except.ok []) [] [] [] []).2.2 [] (by decide)⟩⟩

theorem run_deterministic_steps_witness :
    (∀ (c : Option LLMConfig) (p si : Str),
      (fun (_ : Option LLMConfig) (p : Str) (_ : Str) => Except.ok (ε := Str) p) c p si =
      (fun (_ : Option LLMConfig) (p : Str) (_ : Str) => Except.ok (ε := Str) p) c p si) ∧
    (executeWorkflowEngine (fun _ p _ => Except.ok p) [] [] [] [] []).steps =
      (executeWorkflowEngine (fun _ p _ => Except.ok p) [] [] [] [] []).steps :=
  ⟨fun _ _ _ => rfl,
    run_deterministic_steps (fun _ p _ => Except.ok p) (fun _ p _ => Except.ok p)
      [] [] [] [] [] (fun _ _ _ => rfl)⟩

theorem model_config_soft_fallback_witness :
    (∀ a ∈ ([⟨("a1".data)⟩, ⟨("a2".data)⟩] : List LLMConfig), ¬ a.id = ("m".data)) ∧
    resolveModelConfig ([⟨("a1".data)⟩, ⟨("a2".data)⟩] : List LLMConfig) ("m".data) =
      ([⟨("a1".data)⟩, ⟨("a2".data)⟩] : List LLMConfig).head? :=
  ⟨by decide, model_config_soft_fallback [⟨("a1".data)⟩, ⟨("a2".data)⟩] ("m".data) (by decide)⟩

theorem getVariables_renderTemplate_witness :
    (∀ p ∈ [Sum.inr ("a".data), Sum.inl (" and ".data), Sum.inr ("a".data)],
      wellFormedPart p = true) ∧
    getVariables (renderTemplate [Sum.inr ("a".data), Sum.inl (" and ".data),
        Sum.inr ("a".data)]) =
      placeholdersOf [Sum.inr ("a".data), Sum.inl (" and ".data), Sum.inr ("a".data)] :=
  ⟨by intro p hp; fin_cases hp <;> decide,
    getVariables_renderTemplate [Sum.inr ("a".data), Sum.inl (" and ".data),
      Sum.inr ("a".data)] (by intro p hp; fin_cases hp <;> decide)⟩

theorem edge_bound_missing_raw_output_empty_witness :
    getVariables ('{' :: '{' :: 'v' :: '}' :: '}' :: []) = [("v".data)] ∧
    objGet [] ("v".data) = none ∧
    objGet [] (rawKey ("s".data)) = none ∧
    objGet (executeWorkflowEngine (fun _ _ _ => Except.ok [])
        [⟨("s".data), NodeType.start, ("Entry".data), ⟨none, none, none, none, none⟩⟩,
         ⟨("e".data), NodeType.endNode, ("Exit".data),
          ⟨none, none, none, none, some ('{' :: '{' :: 'v' :: '}' :: '}' :: [])⟩⟩]
        [⟨("ec".data), ("s".data), ("output".data), ("e".data), ("v".data)⟩]
        [] [] []).outputs finalKey =
      some (replaceVar ('{' :: '{' :: 'v' :: '}' :: '}' :: []) ("v".data) []) :=
  ⟨by decide, by decide, by decide,
    edge_bound_missing_raw_output_empty (fun _ _ _ => Except.ok []) [] []
      ("s".data) ("Entry".data) ("e".data) ("Exit".data) ("ec".data) ("output".data)
      ("v".data) ('{' :: '{' :: 'v' :: '}' :: '}' :: []) []
      (by decide) (by decide) (by decide)⟩

end Ziran
